import Mathlib

/-!
Verification of the WireDeck WireGuard configuration core
(`src-tauri/src/wireguard.rs` and `src-tauri/src/lib.rs`).

Strings are modelled as lists of characters (`Str`).  The Rust string
primitives used by the parser (`str::trim`, `str::lines`, `split_once`,
`trim_start_matches`, `trim_matches`, `starts_with`, `ends_with`,
`u16::from_str`, and `Display` for `u16`) are embedded as executable
functions on `Str`; whitespace is the ASCII white-space set.
-/

namespace WireDeck

/-- Strings as lists of characters. -/
abbrev Str := List Char

/-- Turn a Lean string literal into a `Str`. -/
def lit (s : String) : Str := s.data

/-- ASCII white-space characters (the ASCII fragment of Rust's
`char::is_whitespace`). -/
def isWS (c : Char) : Bool :=
  c = ' ' || c = '\t' || c = '\n' || c = '\r' || c = '\x0b' || c = '\x0c'

/-- `str::trim_start` (ASCII fragment). -/
def trimStart (s : Str) : Str := s.dropWhile isWS

/-- `str::trim_end` (ASCII fragment). -/
def trimEnd (s : Str) : Str := (s.reverse.dropWhile isWS).reverse

/-- `str::trim` (ASCII fragment). -/
def trim (s : Str) : Str := trimEnd (trimStart s)

/-- `str::starts_with(c)` for a single character. -/
def startsWithChar (c : Char) : Str → Bool
  | [] => false
  | x :: _ => x = c

/-- `str::ends_with(c)` for a single character. -/
def endsWithChar (c : Char) (s : Str) : Bool := startsWithChar c s.reverse

/-- `str::trim_start_matches('#')`: drop every leading `'#'`. -/
def dropHashes (s : Str) : Str := s.dropWhile (· = '#')

/-- `str::trim_matches(|c| c == '[' || c == ']')`: drop brackets from
both ends. -/
def trimBrackets (s : Str) : Str :=
  let isBr : Char → Bool := fun c => c = '[' || c = ']'
  ((s.dropWhile isBr).reverse.dropWhile isBr).reverse

/-- `str::split_once(c)`: split at the first occurrence of `c`. -/
def splitOnce (c : Char) : Str → Option (Str × Str)
  | [] => none
  | x :: xs =>
    if x = c then some ([], xs)
    else match splitOnce c xs with
         | some (a, b) => some (x :: a, b)
         | none => none

/-- Prepend a character to the first piece of a piece list. -/
def consHead (c : Char) : List Str → List Str
  | [] => [[c]]
  | p :: ps => (c :: p) :: ps

/-- Split a string at every `'\n'`; always returns at least one piece. -/
def splitNl : Str → List Str
  | [] => [[]]
  | c :: cs => if c = '\n' then [] :: splitNl cs else consHead c (splitNl cs)

/-- Strip one trailing `'\r'` (`str::strip_suffix('\r')` fallback to id). -/
def stripCR (s : Str) : Str :=
  if s.getLast? = some '\r' then s.dropLast else s

/-- Final step of `str::lines`: a piece that was followed by `'\n'` has a
trailing `'\r'` stripped, and an empty final piece is dropped. -/
def linesAux : List Str → List Str
  | [] => []
  | [last] => if last.isEmpty then [] else [last]
  | p :: ps => stripCR p :: linesAux ps

/-- Rust's `str::lines`. -/
def rustLines (s : Str) : List Str := linesAux (splitNl s)

/-- Digit-string part of `str::parse::<u16>()`: one or more ASCII digits,
value at most `65535`. -/
def parseU16Core (t : Str) : Option Nat :=
  if t.isEmpty then none
  else if t.all Char.isDigit then
    if t.foldl (fun a c => a * 10 + (c.toNat - 48)) 0 ≤ 65535 then
      some (t.foldl (fun a c => a * 10 + (c.toNat - 48)) 0)
    else none
  else none

/-- `str::parse::<u16>()`: optional leading `'+'`, then one or more ASCII
digits, value at most `65535`. -/
def parseU16 (s : Str) : Option Nat :=
  parseU16Core (match s with
                | c :: r => if c = '+' then r else c :: r
                | [] => [])

/-- Decimal digits of a natural number, accumulator form
(Rust `Display` for unsigned integers). -/
def toDecimalAux (n : Nat) (acc : Str) : Str :=
  if n < 10 then Char.ofNat (48 + n % 10) :: acc
  else toDecimalAux (n / 10) (Char.ofNat (48 + n % 10) :: acc)
termination_by n
decreasing_by
  exact Nat.div_lt_self (by omega) (by omega)

/-- Decimal representation of a natural number. -/
def toDecimal (n : Nat) : Str := toDecimalAux n []

/-! ## The configuration data model (`wireguard.rs`) -/

/-- The `[Interface]` record of a WireGuard config. -/
structure Interface where
  private_key : Str
  address : Str
  listen_port : Nat
  dns : Option Str
  post_up : Option Str
  post_down : Option Str
deriving DecidableEq, Repr

/-- A `[Peer]` record of a WireGuard config. -/
structure Peer where
  public_key : Str
  allowed_ips : Str
  persistent_keepalive : Option Nat
  endpoint : Option Str
  name : Option Str
deriving DecidableEq, Repr

/-- A parsed WireGuard config (`WgConfig`). -/
structure WgConfig where
  name : Str
  path : Str
  interface : Interface
  peers : List Peer
deriving DecidableEq, Repr

/-- The lazily-created `Interface` record with default field values. -/
def defaultInterface : Interface :=
  { private_key := [], address := [], listen_port := 51820,
    dns := none, post_up := none, post_down := none }

/-- A freshly-opened `Peer` record, seeded with the pending comment. -/
def newPeer (comment : Option Str) : Peer :=
  { public_key := [], allowed_ips := [], persistent_keepalive := none,
    endpoint := none, name := comment }

/-! ## The parser (`parse_config_content`) -/

/-- The mutable state of the parsing loop. -/
structure PState where
  interface : Option Interface
  peers : List Peer
  current_section : Str
  current_peer : Option Peer
  last_comment : Option Str
deriving DecidableEq, Repr

/-- The state before the first line. -/
def initState : PState :=
  { interface := none, peers := [], current_section := [],
    current_peer := none, last_comment := none }

/-- Dispatch of one key/value pair inside the `[Interface]` section. -/
def applyInterfaceKey (i : Interface) (key value : Str) : Interface :=
  if key = lit ("PrivateKey") then { i with private_key := value }
  else if key = lit ("Address") then { i with address := value }
  else if key = lit ("ListenPort") then
    { i with listen_port := (parseU16 value).getD 51820 }
  else if key = lit ("DNS") then { i with dns := some value }
  else if key = lit ("PostUp") then { i with post_up := some value }
  else if key = lit ("PostDown") then { i with post_down := some value }
  else i

/-- Dispatch of one key/value pair inside a `[Peer]` section. -/
def applyPeerKey (p : Peer) (key value : Str) : Peer :=
  if key = lit ("PublicKey") then { p with public_key := value }
  else if key = lit ("AllowedIPs") then { p with allowed_ips := value }
  else if key = lit ("PersistentKeepalive") then
    { p with persistent_keepalive := parseU16 value }
  else if key = lit ("Endpoint") then { p with endpoint := some value }
  else p

/-- Effect of an already-split key/value line on the state (the final
branch of the loop body). -/
def kvStep (st : PState) (key value : Str) : PState :=
  if st.current_section = lit ("Interface") then
    let i := st.interface.getD defaultInterface
    { st with interface := some (applyInterfaceKey i key value) }
  else if st.current_section = lit ("Peer") then
    match st.current_peer with
    | some p => { st with current_peer := some (applyPeerKey p key value) }
    | none => st
  else st

/-- Effect of a section-header line on the state. -/
def headerStep (st : PState) (line : Str) : PState :=
  let peers' := st.peers ++ st.current_peer.toList
  let sec := trimBrackets line
  if sec = lit ("Peer") then
    { st with peers := peers',
              current_section := sec,
              current_peer := some (newPeer st.last_comment),
              last_comment := none }
  else
    { st with peers := peers', current_section := sec, current_peer := none }

/-- The body of the parsing loop, after the line has been trimmed. -/
def stepTrimmed (st : PState) (line : Str) : PState :=
  if line.isEmpty then st
  else if startsWithChar '#' line then
    { st with last_comment := some (trim (dropHashes line)) }
  else if startsWithChar '[' line && endsWithChar ']' line then
    headerStep st line
  else
    match splitOnce '=' line with
    | some (k, v) => kvStep st (trim k) (trim v)
    | none => st

/-- One iteration of the parsing loop of `parse_config_content`: trim the
raw line, then dispatch on its shape. -/
def stepLine (st : PState) (raw : Str) : PState := stepTrimmed st (trim raw)

/-- `parse_config_content`: run the loop over all lines, close the last
open peer, and fail when no `[Interface]` record was ever created. -/
def parse_config_content (name path content : Str) : Except Str WgConfig :=
  let st := (rustLines content).foldl stepLine initState
  let peers := st.peers ++ st.current_peer.toList
  match st.interface with
  | none => .error (lit ("No [Interface] section found"))
  | some i => .ok { name := name, path := path, interface := i, peers := peers }

/-! ## The serializer (`serialize_config`) -/

/-- One `Key = value` output line, newline included
(`format!("{} = {}\n", ..)`). -/
def kvLine (k v : Str) : Str := k ++ ' ' :: '=' :: ' ' :: (v ++ ['\n'])

/-- An optional `Key = value` output line. -/
def optLine (k : Str) : Option Str → Str
  | some v => kvLine k v
  | none => []

/-- The output block for one peer. -/
def serializePeer (p : Peer) : Str :=
  ['\n']
  ++ (match p.name with
      | some n => '#' :: ' ' :: (n ++ ['\n'])
      | none => [])
  ++ lit ("[Peer]") ++ ['\n']
  ++ kvLine (lit ("PublicKey")) p.public_key
  ++ kvLine (lit ("AllowedIPs")) p.allowed_ips
  ++ (match p.persistent_keepalive with
      | some k => kvLine (lit ("PersistentKeepalive")) (toDecimal k)
      | none => [])
  ++ optLine (lit ("Endpoint")) p.endpoint

/-- `serialize_config`: the `[Interface]` block followed by one block per
peer, in sequence order. -/
def serialize_config (c : WgConfig) : Str :=
  lit ("[Interface]") ++ ['\n']
  ++ kvLine (lit ("PrivateKey")) c.interface.private_key
  ++ kvLine (lit ("Address")) c.interface.address
  ++ kvLine (lit ("ListenPort")) (toDecimal c.interface.listen_port)
  ++ optLine (lit ("DNS")) c.interface.dns
  ++ optLine (lit ("PostUp")) c.interface.post_up
  ++ optLine (lit ("PostDown")) c.interface.post_down
  ++ (c.peers.map serializePeer).flatten

/-! ## Peer mutation commands (`lib.rs`) -/

/-- Replace the first peer with the given public key
(`iter_mut().find(..)` followed by assignment). -/
def replaceFirst : List Peer → Str → Peer → Option (List Peer)
  | [], _, _ => none
  | q :: qs, pk, np =>
    if q.public_key = pk then some (np :: qs)
    else match replaceFirst qs pk np with
         | some r => some (q :: r)
         | none => none

/-- The `update_peer` command on an already-loaded config. -/
def update_peer (config : WgConfig) (public_key : Str) (updated_peer : Peer) :
    Except Str WgConfig :=
  match replaceFirst config.peers public_key updated_peer with
  | some ps => .ok { config with peers := ps }
  | none => .error (lit ("Peer not found"))

/-- `Vec::retain`: keep the elements satisfying the predicate, in order. -/
def rustRetain (keep : Peer → Bool) : List Peer → List Peer
  | [] => []
  | p :: ps => if keep p then p :: rustRetain keep ps else rustRetain keep ps

/-- The `delete_peer` command on an already-loaded config. -/
def delete_peer (config : WgConfig) (public_key : Str) : Except Str WgConfig :=
  .ok { config with
        peers := rustRetain (fun p => if p.public_key = public_key then false else true)
                   config.peers }

/-! ## Basic lemmas about the string primitives -/

theorem dropWhile_eq_self_of_head (p : Char → Bool) (l : Str)
    (h : List.dropWhile p l = l) : l = [] ∨ ∃ c t, l = c :: t ∧ p c = false := by
  cases l with
  | nil => exact Or.inl rfl
  | cons c t =>
    right
    refine ⟨c, t, rfl, ?_⟩
    by_contra hc
    have hc' : p c = true := by
      cases hpc : p c with
      | false => exact absurd hpc hc
      | true => rfl
    rw [List.dropWhile_cons, if_pos hc'] at h
    have hlen := congrArg List.length h
    have hle := (List.dropWhile_sublist (l := t) p).length_le
    simp at hlen
    omega

theorem trimStart_nil : trimStart [] = [] := rfl

theorem trimStart_cons_nonws {c : Char} (t : Str) (h : isWS c = false) :
    trimStart (c :: t) = c :: t := by
  simp [trimStart, List.dropWhile_cons, h]

theorem trimStart_cons_ws {c : Char} (t : Str) (h : isWS c = true) :
    trimStart (c :: t) = trimStart t := by
  simp [trimStart, List.dropWhile_cons, h]

theorem trimStart_cases (l : Str) :
    trimStart l = [] ∨ ∃ c t, trimStart l = c :: t ∧ isWS c = false := by
  induction l with
  | nil => exact Or.inl rfl
  | cons c t ih =>
    cases h : isWS c with
    | true => rw [trimStart_cons_ws t h]; exact ih
    | false => exact Or.inr ⟨c, t, trimStart_cons_nonws t h, h⟩

theorem trimStart_sublist (l : Str) : (trimStart l).Sublist l :=
  List.dropWhile_sublist _

theorem trimEnd_nil : trimEnd [] = [] := rfl

theorem trimEnd_sublist (l : Str) : (trimEnd l).Sublist l := by
  have h := (List.dropWhile_sublist (l := l.reverse) isWS).reverse
  simpa using h

theorem trimEnd_cons_nonws {c : Char} (t : Str) (h : isWS c = false) :
    trimEnd (c :: t) = c :: trimEnd t := by
  unfold trimEnd
  rw [show (c :: t).reverse = t.reverse ++ [c] by simp]
  rw [List.dropWhile_append]
  by_cases he : (List.dropWhile isWS t.reverse).isEmpty = true
  · rw [if_pos he]
    rw [List.isEmpty_iff] at he
    simp [List.dropWhile_cons, h, he]
  · rw [if_neg he]
    simp

theorem trimEnd_append_ws {d : Char} (l : Str) (h : isWS d = true) :
    trimEnd (l ++ [d]) = trimEnd l := by
  unfold trimEnd
  rw [show (l ++ [d]).reverse = d :: l.reverse by simp]
  simp [List.dropWhile_cons, h]

theorem trimEnd_eq_self_last (v : Str) (h : trimEnd v = v) :
    v = [] ∨ ∃ c t, v.reverse = c :: t ∧ isWS c = false := by
  unfold trimEnd at h
  have h' : List.dropWhile isWS v.reverse = v.reverse := by
    have := congrArg List.reverse h
    simpa using this
  rcases dropWhile_eq_self_of_head isWS v.reverse h' with h0 | ⟨c, t, hct, hc⟩
  · left
    simpa using congrArg List.reverse h0
  · exact Or.inr ⟨c, t, hct, hc⟩

theorem trimEnd_append_right (a v : Str) (hv : trimEnd v = v) (hne : v ≠ []) :
    trimEnd (a ++ v) = a ++ v := by
  rcases trimEnd_eq_self_last v hv with h0 | ⟨c, t, hct, hc⟩
  · exact absurd h0 hne
  · unfold trimEnd
    rw [List.reverse_append, hct, List.cons_append, List.dropWhile_cons,
        if_neg (by simp [hc]), ← List.cons_append, ← hct,
        ← List.reverse_append, List.reverse_reverse]

theorem trim_nil : trim [] = [] := rfl

theorem trim_cons_ws {c : Char} (t : Str) (h : isWS c = true) :
    trim (c :: t) = trim t := by
  unfold trim
  rw [trimStart_cons_ws t h]

theorem trim_cons_nonws {c : Char} (t : Str) (h : isWS c = false) :
    trim (c :: t) = c :: trimEnd t := by
  unfold trim
  rw [trimStart_cons_nonws t h, trimEnd_cons_nonws t h]

theorem dropWhile_dropWhile (p : Char → Bool) (l : Str) :
    List.dropWhile p (List.dropWhile p l) = List.dropWhile p l := by
  induction l with
  | nil => rfl
  | cons c t ih =>
    rw [List.dropWhile_cons]
    by_cases h : p c = true
    · rw [if_pos h]; exact ih
    · rw [if_neg h, List.dropWhile_cons, if_neg h]

theorem trimEnd_idem (t : Str) : trimEnd (trimEnd t) = trimEnd t := by
  unfold trimEnd
  rw [List.reverse_reverse, dropWhile_dropWhile]

theorem trim_idem (s : Str) : trim (trim s) = trim s := by
  rcases trimStart_cases s with h0 | ⟨c, t, hct, hc⟩
  · unfold trim
    rw [h0, trimEnd_nil, trimStart_nil, trimEnd_nil]
  · unfold trim
    rw [hct, trimEnd_cons_nonws t hc, trimStart_cons_nonws _ hc,
        trimEnd_cons_nonws _ hc, trimEnd_idem]

theorem trim_sublist (s : Str) : (trim s).Sublist s :=
  ((trimEnd_sublist (trimStart s)).trans (trimStart_sublist s))

theorem mem_of_mem_trim {c : Char} {s : Str} (h : c ∈ trim s) : c ∈ s :=
  (trim_sublist s).mem h

theorem trimStart_eq_self_of_trim {v : Str} (h : trim v = v) :
    trimStart v = v := by
  have h1 : (trimEnd (trimStart v)).length ≤ (trimStart v).length :=
    (trimEnd_sublist _).length_le
  have h2 : (trimStart v).length ≤ v.length := (trimStart_sublist _).length_le
  have h3 : (trimEnd (trimStart v)).length = v.length := by rw [← trim]; rw [h]
  have hlen : (trimStart v).length = v.length := by omega
  exact List.IsSuffix.eq_of_length (List.dropWhile_suffix isWS) hlen

theorem trimEnd_eq_self_of_trim {v : Str} (h : trim v = v) :
    trimEnd v = v := by
  have h1 := trimStart_eq_self_of_trim h
  unfold trim at h
  rw [h1] at h
  exact h

/-! ## Lemmas about `splitOnce` -/

theorem splitOnce_eq_some {c : Char} :
    ∀ {l a b : Str}, splitOnce c l = some (a, b) → l = a ++ c :: b := by
  intro l
  induction l with
  | nil => intro a b h; simp [splitOnce] at h
  | cons x xs ih =>
    intro a b h
    unfold splitOnce at h
    by_cases hx : x = c
    · rw [if_pos hx] at h
      simp only [Option.some.injEq, Prod.mk.injEq] at h
      obtain ⟨ha, hb⟩ := h
      subst ha
      subst hb
      simp [hx]
    · rw [if_neg hx] at h
      cases hs : splitOnce c xs with
      | none => rw [hs] at h; simp at h
      | some p =>
        obtain ⟨a0, b0⟩ := p
        rw [hs] at h
        obtain ⟨ha, hb⟩ := by simpa using h
        rw [← ha, ← hb]
        have := ih hs
        simp [this]

theorem splitOnce_append {c : Char} :
    ∀ (a b : Str), c ∉ a → splitOnce c (a ++ c :: b) = some (a, b) := by
  intro a
  induction a with
  | nil => intro b _; simp [splitOnce]
  | cons x xs ih =>
    intro b hni
    have hx : x ≠ c := by
      intro hx
      exact hni (by simp [hx])
    have hxs : c ∉ xs := fun h => hni (List.mem_cons_of_mem _ h)
    rw [List.cons_append]
    unfold splitOnce
    rw [if_neg hx, ih b hxs]

/-! ## Lemmas about `rustLines` -/

theorem splitNl_cons (c : Char) (cs : Str) :
    splitNl (c :: cs) =
      if c = '\n' then [] :: splitNl cs else consHead c (splitNl cs) := rfl

theorem splitNl_ne_nil (s : Str) : splitNl s ≠ [] := by
  cases s with
  | nil => simp [splitNl]
  | cons c cs =>
    unfold splitNl
    by_cases h : c = '\n'
    · rw [if_pos h]; simp
    · rw [if_neg h]
      cases hs : splitNl cs with
      | nil => simp [consHead]
      | cons p ps => simp [consHead]

theorem splitNl_no_nl (s : Str) : ∀ l ∈ splitNl s, '\n' ∉ l := by
  induction s with
  | nil =>
    intro l hl
    simp [splitNl] at hl
    simp [hl]
  | cons c cs ih =>
    intro l hl
    unfold splitNl at hl
    by_cases h : c = '\n'
    · rw [if_pos h] at hl
      rcases List.mem_cons.mp hl with h0 | h0
      · simp [h0]
      · exact ih l h0
    · rw [if_neg h] at hl
      cases hs : splitNl cs with
      | nil => exact absurd hs (splitNl_ne_nil cs)
      | cons p ps =>
        rw [hs] at hl
        rw [show consHead c (p :: ps) = (c :: p) :: ps from rfl] at hl
        rcases List.mem_cons.mp hl with h0 | h0
        · subst h0
          intro hmem
          rcases List.mem_cons.mp hmem with h1 | h1
          · exact h h1.symm
          · exact ih p (hs ▸ List.mem_cons_self p ps) h1
        · exact ih l (hs ▸ List.mem_cons_of_mem p h0)

theorem splitNl_append (a : Str) (rest : Str) (h : '\n' ∉ a) :
    splitNl (a ++ '\n' :: rest) = a :: splitNl rest := by
  induction a with
  | nil => simp [splitNl]
  | cons c cs ih =>
    have hc : c ≠ '\n' := fun hc => h (by simp [hc])
    have hcs : '\n' ∉ cs := fun hm => h (List.mem_cons_of_mem _ hm)
    rw [List.cons_append, splitNl_cons, if_neg hc, ih hcs]
    rfl

theorem stripCR_eq_self {l : Str} (h : l.getLast? ≠ some '\r') :
    stripCR l = l := by
  unfold stripCR
  rw [if_neg h]

theorem mem_of_mem_stripCR {c : Char} {l : Str} (h : c ∈ stripCR l) : c ∈ l := by
  unfold stripCR at h
  by_cases hl : l.getLast? = some '\r'
  · rw [if_pos hl] at h
    exact (List.dropLast_sublist l).mem h
  · rw [if_neg hl] at h
    exact h

theorem rustLines_no_nl (s : Str) : ∀ l ∈ rustLines s, '\n' ∉ l := by
  unfold rustLines
  have key : ∀ (ps : List Str), (∀ p ∈ ps, '\n' ∉ p) →
      ∀ l ∈ linesAux ps, '\n' ∉ l := by
    intro ps
    induction ps with
    | nil => intro _ l hl; simp [linesAux] at hl
    | cons p ps ih =>
      intro hps l hl
      cases ps with
      | nil =>
        unfold linesAux at hl
        by_cases he : p.isEmpty = true
        · rw [if_pos he] at hl; simp at hl
        · rw [if_neg he] at hl
          simp at hl
          subst hl
          exact hps _ (List.mem_cons_self _ _)
      | cons q qs =>
        unfold linesAux at hl
        rcases List.mem_cons.mp hl with h0 | h0
        · subst h0
          intro hm
          exact hps p (List.mem_cons_self _ _) (mem_of_mem_stripCR hm)
        · exact ih (fun r hr => hps r (List.mem_cons_of_mem p hr)) l h0
  exact key (splitNl s) (splitNl_no_nl s)

/-- Serialized text as a list of newline-free lines, each implicitly
terminated by `'\n'`. -/
def joinLines (L : List Str) : Str := (L.map (· ++ ['\n'])).flatten

theorem rustLines_joinLines (L : List Str)
    (h : ∀ l ∈ L, '\n' ∉ l ∧ l.getLast? ≠ some '\r') :
    rustLines (joinLines L) = L := by
  induction L with
  | nil => rfl
  | cons l ls ih =>
    have hl := h l (List.mem_cons_self _ _)
    have hls : ∀ p ∈ ls, '\n' ∉ p ∧ p.getLast? ≠ some '\r' :=
      fun p hp => h p (List.mem_cons_of_mem l hp)
    have harr : joinLines (l :: ls) = l ++ '\n' :: joinLines ls := by
      simp [joinLines]
    unfold rustLines
    rw [harr, splitNl_append _ _ hl.1]
    cases hs : splitNl (joinLines ls) with
    | nil => exact absurd hs (splitNl_ne_nil _)
    | cons p ps =>
      have ihl : linesAux (p :: ps) = ls := by
        have hr := ih hls
        unfold rustLines at hr
        rw [hs] at hr
        exact hr
      show stripCR l :: linesAux (p :: ps) = l :: ls
      rw [stripCR_eq_self hl.2, ihl]

theorem getLast?_ne_of_notmem {c : Char} {l : Str} (h : c ∉ l) :
    l.getLast? ≠ some c := by
  intro hc
  cases l with
  | nil => simp at hc
  | cons a t =>
    rw [List.getLast?_eq_getLast (a :: t) (by simp)] at hc
    simp only [Option.some.injEq] at hc
    exact h (hc ▸ List.getLast_mem (by simp))

/-! ## Decimal round-trip lemmas -/

theorem digitChar_toNat {m : Nat} (h : m < 10) :
    (Char.ofNat (48 + m)).toNat = 48 + m := by
  interval_cases m <;> decide

theorem toDecimalAux_acc (n : Nat) :
    ∀ acc, toDecimalAux n acc = toDecimalAux n [] ++ acc := by
  induction n using Nat.strong_induction_on with
  | _ n ih =>
    intro acc
    by_cases h : n < 10
    · rw [toDecimalAux, if_pos h, toDecimalAux, if_pos h]
      simp
    · rw [toDecimalAux, if_neg h]
      conv_rhs => rw [toDecimalAux, if_neg h]
      have hlt : n / 10 < n := Nat.div_lt_self (by omega) (by omega)
      rw [ih (n / 10) hlt (Char.ofNat (48 + n % 10) :: acc),
          ih (n / 10) hlt [Char.ofNat (48 + n % 10)]]
      simp

theorem toDecimal_split {n : Nat} (h : ¬ n < 10) :
    toDecimal n = toDecimal (n / 10) ++ [Char.ofNat (48 + n % 10)] := by
  unfold toDecimal
  rw [toDecimalAux, if_neg h, toDecimalAux_acc]

theorem toDecimal_ne_nil (n : Nat) : toDecimal n ≠ [] := by
  unfold toDecimal
  by_cases h : n < 10
  · rw [toDecimalAux, if_pos h]; simp
  · rw [toDecimalAux, if_neg h, toDecimalAux_acc]; simp

theorem toDecimal_range (n : Nat) :
    ∀ c ∈ toDecimal n, 48 ≤ c.toNat ∧ c.toNat ≤ 57 := by
  induction n using Nat.strong_induction_on with
  | _ n ih =>
    intro c hc
    have hd : (Char.ofNat (48 + n % 10)).toNat = 48 + n % 10 :=
      digitChar_toNat (Nat.mod_lt n (by omega))
    by_cases h : n < 10
    · unfold toDecimal at hc
      rw [toDecimalAux, if_pos h] at hc
      simp at hc
      subst hc
      constructor <;> (rw [hd]; omega)
    · rw [toDecimal_split h] at hc
      rcases List.mem_append.mp hc with h0 | h0
      · exact ih (n / 10) (Nat.div_lt_self (by omega) (by omega)) c h0
      · simp at h0
        subst h0
        constructor <;> (rw [hd]; omega)

theorem toDecimal_foldl (n : Nat) :
    (toDecimal n).foldl (fun a c => a * 10 + (c.toNat - 48)) 0 = n := by
  induction n using Nat.strong_induction_on with
  | _ n ih =>
    have hd : (Char.ofNat (48 + n % 10)).toNat = 48 + n % 10 :=
      digitChar_toNat (Nat.mod_lt n (by omega))
    by_cases h : n < 10
    · unfold toDecimal
      rw [toDecimalAux, if_pos h]
      simp [hd]
      omega
    · rw [toDecimal_split h, List.foldl_append,
          ih (n / 10) (Nat.div_lt_self (by omega) (by omega))]
      simp [hd]
      have := Nat.div_add_mod n 10
      omega

theorem isWS_false_of_digit {c : Char} (h1 : 48 ≤ c.toNat) (h2 : c.toNat ≤ 57) :
    isWS c = false := by
  unfold isWS
  have k : ∀ d : Char, c = d → c.toNat = d.toNat := fun d hd => by rw [hd]
  simp only [Bool.or_eq_false_iff, decide_eq_false_iff_not]
  refine ⟨⟨⟨⟨⟨?_, ?_⟩, ?_⟩, ?_⟩, ?_⟩, ?_⟩ <;>
    (intro he; have := k _ he; simp at this; omega)

theorem digitChar_isDigit {m : Nat} (h : m < 10) :
    (Char.ofNat (48 + m)).isDigit = true := by
  interval_cases m <;> decide

theorem toDecimal_isDigit (n : Nat) : ∀ c ∈ toDecimal n, c.isDigit = true := by
  induction n using Nat.strong_induction_on with
  | _ n ih =>
    intro c hc
    by_cases h : n < 10
    · unfold toDecimal at hc
      rw [toDecimalAux, if_pos h] at hc
      simp at hc
      subst hc
      exact digitChar_isDigit (Nat.mod_lt n (by omega))
    · rw [toDecimal_split h] at hc
      rcases List.mem_append.mp hc with h0 | h0
      · exact ih (n / 10) (Nat.div_lt_self (by omega) (by omega)) c h0
      · simp at h0
        subst h0
        exact digitChar_isDigit (Nat.mod_lt n (by omega))

theorem parseU16Core_le {t : Str} {k : Nat} (h : parseU16Core t = some k) :
    k ≤ 65535 := by
  unfold parseU16Core at h
  by_cases h1 : t.isEmpty = true
  · rw [if_pos h1] at h; simp at h
  · rw [if_neg h1] at h
    by_cases h2 : t.all Char.isDigit = true
    · rw [if_pos h2] at h
      by_cases h3 : t.foldl (fun a c => a * 10 + (c.toNat - 48)) 0 ≤ 65535
      · rw [if_pos h3] at h
        simp at h
        omega
      · rw [if_neg h3] at h; simp at h
    · rw [if_neg h2] at h; simp at h

theorem parseU16_le {s : Str} {k : Nat} (h : parseU16 s = some k) : k ≤ 65535 := by
  unfold parseU16 at h
  exact parseU16Core_le h

theorem parseU16_toDecimal {n : Nat} (h : n ≤ 65535) :
    parseU16 (toDecimal n) = some n := by
  cases hd : toDecimal n with
  | nil => exact absurd hd (toDecimal_ne_nil n)
  | cons c t =>
    have hrange : ∀ x ∈ toDecimal n, 48 ≤ x.toNat ∧ x.toNat ≤ 57 :=
      toDecimal_range n
    have hc : c ≠ '+' := by
      intro hc
      have hcr := hrange c (hd ▸ List.mem_cons_self _ _)
      rw [hc] at hcr
      simp at hcr
    have hdig : (c :: t).all Char.isDigit = true := by
      rw [List.all_eq_true]
      intro x hx
      exact toDecimal_isDigit n x (hd ▸ hx)
    have hfold : (c :: t).foldl (fun a x => a * 10 + (x.toNat - 48)) 0 = n := by
      rw [← hd]
      exact toDecimal_foldl n
    show parseU16 (c :: t) = some n
    unfold parseU16
    show parseU16Core (if c = '+' then t else c :: t) = some n
    rw [if_neg hc]
    unfold parseU16Core
    rw [if_neg (by simp), if_pos hdig, hfold, if_pos h]

/-! ## Line-shape lemmas for the parsing step -/

theorem stepTrimmed_blank (st : PState) : stepTrimmed st [] = st := rfl

theorem stepLine_blank (st : PState) {raw : Str} (h : trim raw = []) :
    stepLine st raw = st := by
  unfold stepLine
  rw [h]
  exact stepTrimmed_blank st

theorem stepTrimmed_comment (st : PState) (rest : Str) :
    stepTrimmed st ('#' :: rest) =
      { st with last_comment := some (trim (dropHashes ('#' :: rest))) } := by
  unfold stepTrimmed
  rw [if_neg (by simp), if_pos (by simp [startsWithChar])]

theorem stepLine_comment (st : PState) {raw rest : Str}
    (h : trim raw = '#' :: rest) :
    stepLine st raw =
      { st with last_comment := some (trim (dropHashes ('#' :: rest))) } := by
  unfold stepLine
  rw [h, stepTrimmed_comment]

theorem stepTrimmed_header (st : PState) {line : Str}
    (h1 : startsWithChar '[' line = true) (h2 : endsWithChar ']' line = true) :
    stepTrimmed st line = headerStep st line := by
  cases line with
  | nil => simp [startsWithChar] at h1
  | cons x t =>
    have hx : x = '[' := by simpa [startsWithChar] using h1
    subst hx
    unfold stepTrimmed
    rw [if_neg (by simp), if_neg (by simp [startsWithChar]),
        if_pos (by simp [h1, h2])]

theorem stepLine_header (st : PState) {raw line : Str} (h : trim raw = line)
    (h1 : startsWithChar '[' line = true) (h2 : endsWithChar ']' line = true) :
    stepLine st raw = headerStep st line := by
  unfold stepLine
  rw [h, stepTrimmed_header st h1 h2]

theorem trimEnd_tail {c : Char} {k : Str} (hcw : isWS c = false)
    (hkend : trimEnd (c :: k) = c :: k) : trimEnd k = k := by
  have h2 := trimEnd_cons_nonws k hcw
  rw [hkend] at h2
  injection h2 with h3 h4
  exact h4.symm

theorem trim_kv_shape (c : Char) (k v : Str) (hcw : isWS c = false)
    (hkend : trimEnd (c :: k) = c :: k) (hv : trim v = v) :
    trim (c :: (k ++ ' ' :: '=' :: ' ' :: v)) =
      if v.isEmpty then c :: (k ++ [' ', '='])
      else c :: ((k ++ [' ', '=', ' ']) ++ v) := by
  rw [trim_cons_nonws _ hcw]
  by_cases hv0 : v.isEmpty = true
  · rw [if_pos hv0]
    rw [List.isEmpty_iff] at hv0
    subst hv0
    rw [show k ++ ' ' :: '=' :: ' ' :: ([] : Str) = (k ++ [' ', '=']) ++ [' ']
          by simp]
    rw [trimEnd_append_ws _ (by decide)]
    rw [show k ++ [' ', '='] = (k ++ [' ']) ++ ['='] by simp]
    rw [trimEnd_append_right _ _ (by decide) (by simp)]
  · rw [if_neg hv0]
    rw [show k ++ ' ' :: '=' :: ' ' :: v = (k ++ [' ', '=', ' ']) ++ v by simp]
    rw [trimEnd_append_right _ _ (trimEnd_eq_self_of_trim hv)
          (fun h0 => hv0 (by simp [h0]))]

theorem trim_key_part (c : Char) (k : Str) (hcw : isWS c = false)
    (hkend : trimEnd (c :: k) = c :: k) :
    trim (c :: (k ++ [' '])) = c :: k := by
  rw [trim_cons_nonws _ hcw, trimEnd_append_ws _ (by decide),
      trimEnd_tail hcw hkend]

theorem stepLine_kv (st : PState) (c : Char) (k v : Str)
    (hcw : isWS c = false) (hch : c ≠ '#') (hcb : c ≠ '[')
    (hkeq : '=' ∉ c :: k) (hkend : trimEnd (c :: k) = c :: k)
    (hv : trim v = v) :
    stepLine st (c :: (k ++ ' ' :: '=' :: ' ' :: v)) = kvStep st (c :: k) v := by
  unfold stepLine
  rw [trim_kv_shape c k v hcw hkend hv]
  by_cases hv0 : v.isEmpty = true
  · rw [if_pos hv0]
    rw [List.isEmpty_iff] at hv0
    unfold stepTrimmed
    rw [if_neg (by simp), if_neg (by simp [startsWithChar, hch]),
        if_neg (by simp [startsWithChar, hcb])]
    have hsp : splitOnce '=' (c :: (k ++ [' ', '='])) =
        some (c :: (k ++ [' ']), []) := by
      have e : c :: (k ++ [' ', '=']) = (c :: (k ++ [' '])) ++ '=' :: [] := by
        simp
      rw [e]
      refine splitOnce_append _ _ ?_
      intro hmem
      rcases List.mem_cons.mp hmem with h0 | h0
      · exact hkeq (List.mem_cons.mpr (Or.inl h0))
      · rcases List.mem_append.mp h0 with h1 | h1
        · exact hkeq (List.mem_cons_of_mem _ h1)
        · simp at h1
    rw [hsp]
    show kvStep st (trim (c :: (k ++ [' ']))) (trim []) = kvStep st (c :: k) v
    rw [trim_key_part c k hcw hkend, trim_nil, hv0]
  · rw [if_neg hv0]
    unfold stepTrimmed
    rw [if_neg (by simp), if_neg (by simp [startsWithChar, hch]),
        if_neg (by simp [startsWithChar, hcb])]
    have hsp : splitOnce '=' (c :: ((k ++ [' ', '=', ' ']) ++ v)) =
        some (c :: (k ++ [' ']), ' ' :: v) := by
      have e : c :: ((k ++ [' ', '=', ' ']) ++ v)
          = (c :: (k ++ [' '])) ++ '=' :: (' ' :: v) := by simp
      rw [e]
      refine splitOnce_append _ _ ?_
      intro hmem
      rcases List.mem_cons.mp hmem with h0 | h0
      · exact hkeq (List.mem_cons.mpr (Or.inl h0))
      · rcases List.mem_append.mp h0 with h1 | h1
        · exact hkeq (List.mem_cons_of_mem _ h1)
        · simp at h1
    rw [hsp]
    show kvStep st (trim (c :: (k ++ [' ']))) (trim (' ' :: v))
        = kvStep st (c :: k) v
    rw [trim_key_part c k hcw hkend, trim_cons_ws _ (by decide), hv]

/-! ## The serialized text as a list of lines -/

/-- One `Key = value` line, without the trailing newline. -/
def kvL (k v : Str) : Str := k ++ ' ' :: '=' :: ' ' :: v

/-- Zero or one lines coming from an optional field. -/
def optList {α : Type} (f : α → Str) : Option α → List Str
  | some d => [f d]
  | none => []

theorem mem_optList {α : Type} {f : α → Str} {o : Option α} {l : Str}
    (h : l ∈ optList f o) : ∃ d, o = some d ∧ l = f d := by
  cases o with
  | none => simp [optList] at h
  | some d =>
    simp [optList] at h
    exact ⟨d, rfl, h⟩

/-- The lines of the serialized `[Interface]` block. -/
def interfaceLines (i : Interface) : List Str :=
  [lit ("[Interface]"),
   kvL (lit ("PrivateKey")) i.private_key,
   kvL (lit ("Address")) i.address,
   kvL (lit ("ListenPort")) (toDecimal i.listen_port)]
  ++ optList (kvL (lit ("DNS"))) i.dns
  ++ optList (kvL (lit ("PostUp"))) i.post_up
  ++ optList (kvL (lit ("PostDown"))) i.post_down

/-- The lines of one serialized peer block (leading blank line included). -/
def peerLines (p : Peer) : List Str :=
  [[]]
  ++ optList (fun n => '#' :: ' ' :: n) p.name
  ++ [lit ("[Peer]"),
      kvL (lit ("PublicKey")) p.public_key,
      kvL (lit ("AllowedIPs")) p.allowed_ips]
  ++ optList (fun k => kvL (lit ("PersistentKeepalive")) (toDecimal k))
       p.persistent_keepalive
  ++ optList (kvL (lit ("Endpoint"))) p.endpoint

/-- All lines of a serialized config. -/
def configLines (c : WgConfig) : List Str :=
  interfaceLines c.interface ++ (c.peers.map peerLines).flatten

theorem joinLines_append (A B : List Str) :
    joinLines (A ++ B) = joinLines A ++ joinLines B := by
  simp [joinLines]

theorem serializePeer_joinLines (p : Peer) :
    serializePeer p = joinLines (peerLines p) := by
  cases hn : p.name <;> cases hk : p.persistent_keepalive <;>
    cases he : p.endpoint <;>
    simp [serializePeer, peerLines, joinLines, kvLine, kvL, optLine, optList,
          hn, hk, he]

theorem serialize_config_joinLines (c : WgConfig) :
    serialize_config c = joinLines (configLines c) := by
  have hpeers : ∀ ps : List Peer,
      (ps.map serializePeer).flatten = joinLines ((ps.map peerLines).flatten) := by
    intro ps
    induction ps with
    | nil => rfl
    | cons p t ih =>
      rw [List.map_cons, List.flatten_cons, List.map_cons, List.flatten_cons,
          joinLines_append, ih, serializePeer_joinLines]
  unfold configLines
  rw [joinLines_append, ← hpeers]
  cases hd : c.interface.dns <;> cases hu : c.interface.post_up <;>
    cases hw : c.interface.post_down <;>
    simp [serialize_config, interfaceLines, joinLines, kvLine, kvL, optLine,
          optList, hd, hu, hw]

/-! ## Well-formedness of parsed values -/

/-- A string value as produced by the parser: trimmed, and free of
newlines. -/
def normal (s : Str) : Prop := trim s = s ∧ '\n' ∉ s

/-- `normal` lifted to optional values. -/
def normalO : Option Str → Prop
  | none => True
  | some s => normal s

/-- Field invariants of a parsed `Interface`. -/
def WfInterface (i : Interface) : Prop :=
  normal i.private_key ∧ normal i.address ∧ i.listen_port ≤ 65535 ∧
  normalO i.dns ∧ normalO i.post_up ∧ normalO i.post_down

/-- Field invariants of a parsed `Peer`. -/
def WfPeer (p : Peer) : Prop :=
  normal p.public_key ∧ normal p.allowed_ips ∧
  (∀ k, p.persistent_keepalive = some k → k ≤ 65535) ∧
  normalO p.endpoint ∧ normalO p.name

/-- Field invariants of a parsed `WgConfig`. -/
def WfConfig (c : WgConfig) : Prop :=
  WfInterface c.interface ∧ ∀ p ∈ c.peers, WfPeer p

theorem trim_all_nonws {v : Str} (h : ∀ c ∈ v, isWS c = false) :
    trim v = v := by
  have h1 : trimStart v = v := by
    cases v with
    | nil => rfl
    | cons c t => exact trimStart_cons_nonws t (h c (List.mem_cons_self _ _))
  have h2 : trimEnd v = v := by
    unfold trimEnd
    cases hr : v.reverse with
    | nil =>
      have : v = [] := by simpa using congrArg List.reverse hr
      simp [this]
    | cons c t =>
      have hc : isWS c = false :=
        h c (List.mem_reverse.mp (hr ▸ List.mem_cons_self _ _))
      rw [List.dropWhile_cons, if_neg (by simp [hc]), ← hr,
          List.reverse_reverse]
  unfold trim
  rw [h1, h2]

theorem toDecimal_normal (n : Nat) : normal (toDecimal n) := by
  constructor
  · refine trim_all_nonws ?_
    intro c hc
    have := toDecimal_range n c hc
    exact isWS_false_of_digit this.1 this.2
  · intro hmem
    have := toDecimal_range n '\n' hmem
    exact absurd this.1 (by decide)

theorem getLast?_append_of_ne (a v : Str) (hv : v ≠ []) :
    (a ++ v).getLast? = v.getLast? := by
  rw [List.getLast?_append, List.getLast?_eq_getLast v hv]
  rfl

theorem getLast?_ne_cr_of_trimEnd {v : Str} (h : trimEnd v = v) :
    v.getLast? ≠ some '\r' := by
  rcases trimEnd_eq_self_last v h with h0 | ⟨c, t, hct, hc⟩
  · subst h0; simp
  · rw [← List.head?_reverse, hct]
    intro hcon
    simp at hcon
    rw [hcon] at hc
    exact absurd hc (by decide)

/-- A `Key = value` line for a well-formed value is newline-free and does
not end in a carriage return. -/
theorem kvL_ok (k v : Str) (hk : '\n' ∉ k) (hv : normal v) :
    '\n' ∉ kvL k v ∧ (kvL k v).getLast? ≠ some '\r' := by
  constructor
  · intro hmem
    unfold kvL at hmem
    rcases List.mem_append.mp hmem with h0 | h0
    · exact hk h0
    · rcases List.mem_cons.mp h0 with h1 | h1
      · simp at h1
      · rcases List.mem_cons.mp h1 with h2 | h2
        · simp at h2
        · rcases List.mem_cons.mp h2 with h3 | h3
          · simp at h3
          · exact hv.2 h3
  · by_cases hv0 : v = []
    · subst hv0
      unfold kvL
      rw [getLast?_append_of_ne _ _ (by simp)]
      decide
    · unfold kvL
      rw [show k ++ ' ' :: '=' :: ' ' :: v = (k ++ [' ', '=', ' ']) ++ v by simp,
          getLast?_append_of_ne _ _ hv0]
      exact getLast?_ne_cr_of_trimEnd (trimEnd_eq_self_of_trim hv.1)

/-- A `# name` comment line for a well-formed name is newline-free and does
not end in a carriage return. -/
theorem commentLine_ok (nm : Str) (hnm : normal nm) :
    '\n' ∉ ('#' :: ' ' :: nm : Str)
      ∧ ('#' :: ' ' :: nm : Str).getLast? ≠ some '\r' := by
  constructor
  · intro hmem2
    rcases List.mem_cons.mp hmem2 with h1 | h1
    · simp at h1
    · rcases List.mem_cons.mp h1 with h2 | h2
      · simp at h2
      · exact hnm.2 h2
  · by_cases hn0 : nm = []
    · subst hn0; decide
    · rw [show ('#' :: ' ' :: nm : Str) = ['#', ' '] ++ nm by simp,
          getLast?_append_of_ne _ _ hn0]
      exact getLast?_ne_cr_of_trimEnd (trimEnd_eq_self_of_trim hnm.1)

theorem peerLines_ok (p : Peer) (hp : WfPeer p) :
    ∀ l ∈ peerLines p, '\n' ∉ l ∧ l.getLast? ≠ some '\r' := by
  obtain ⟨g1, g2, g3, g4, g5⟩ := hp
  intro l hl
  unfold peerLines at hl
  rcases List.mem_append.mp hl with h0 | h0
  swap
  · obtain ⟨e, he, rfl⟩ := mem_optList h0
    have : normalO p.endpoint := g4
    rw [he] at this
    exact kvL_ok _ _ (by decide) this
  rcases List.mem_append.mp h0 with h0 | h0
  swap
  · obtain ⟨kk, hk, rfl⟩ := mem_optList h0
    exact kvL_ok _ _ (by decide) (toDecimal_normal _)
  rcases List.mem_append.mp h0 with h0 | h0
  swap
  · rcases List.mem_cons.mp h0 with h1 | h1
    · subst h1; decide
    · rcases List.mem_cons.mp h1 with h2 | h2
      · subst h2; exact kvL_ok _ _ (by decide) g1
      · rcases List.mem_cons.mp h2 with h3 | h3
        · subst h3; exact kvL_ok _ _ (by decide) g2
        · simp at h3
  rcases List.mem_append.mp h0 with h0 | h0
  swap
  · obtain ⟨nm, hn, rfl⟩ := mem_optList h0
    have : normalO p.name := g5
    rw [hn] at this
    exact commentLine_ok nm this
  · simp at h0
    subst h0
    simp

theorem interfaceLines_ok (i : Interface) (hi : WfInterface i) :
    ∀ l ∈ interfaceLines i, '\n' ∉ l ∧ l.getLast? ≠ some '\r' := by
  obtain ⟨h1, h2, h3, h4, h5, h6⟩ := hi
  intro l hl
  unfold interfaceLines at hl
  rcases List.mem_append.mp hl with h0 | h0
  swap
  · obtain ⟨d, hd, rfl⟩ := mem_optList h0
    have : normalO i.post_down := h6
    rw [hd] at this
    exact kvL_ok _ _ (by decide) this
  rcases List.mem_append.mp h0 with h0 | h0
  swap
  · obtain ⟨u, hu, rfl⟩ := mem_optList h0
    have : normalO i.post_up := h5
    rw [hu] at this
    exact kvL_ok _ _ (by decide) this
  rcases List.mem_append.mp h0 with h0 | h0
  swap
  · obtain ⟨d, hd, rfl⟩ := mem_optList h0
    have : normalO i.dns := h4
    rw [hd] at this
    exact kvL_ok _ _ (by decide) this
  · rcases List.mem_cons.mp h0 with g | g
    · subst g; decide
    · rcases List.mem_cons.mp g with g | g
      · subst g; exact kvL_ok _ _ (by decide) h1
      · rcases List.mem_cons.mp g with g | g
        · subst g; exact kvL_ok _ _ (by decide) h2
        · rcases List.mem_cons.mp g with g | g
          · subst g; exact kvL_ok _ _ (by decide) (toDecimal_normal _)
          · simp at g

theorem configLines_ok (c : WgConfig) (hc : WfConfig c) :
    ∀ l ∈ configLines c, '\n' ∉ l ∧ l.getLast? ≠ some '\r' := by
  intro l hl
  unfold configLines at hl
  rcases List.mem_append.mp hl with h0 | h0
  · exact interfaceLines_ok c.interface hc.1 l h0
  · rw [List.mem_flatten] at h0
    obtain ⟨ls, hls, hmem⟩ := h0
    rw [List.mem_map] at hls
    obtain ⟨p, hp, hpl⟩ := hls
    subst hpl
    exact peerLines_ok p (hc.2 p hp) l hmem

/-- The lines of the serialized text of a well-formed config. -/
theorem rustLines_serialize (c : WgConfig) (hc : WfConfig c) :
    rustLines (serialize_config c) = configLines c := by
  rw [serialize_config_joinLines]
  exact rustLines_joinLines _ (configLines_ok c hc)

/-! ## Processing the serialized lines -/

theorem stepLine_header_interface (st : PState) :
    stepLine st (lit ("[Interface]")) =
      { st with peers := st.peers ++ st.current_peer.toList,
                current_section := lit ("Interface"),
                current_peer := none } := by
  rw [stepLine_header st (show trim (lit ("[Interface]")) = lit ("[Interface]")
        from by decide) (by decide) (by decide)]
  unfold headerStep
  rw [show trimBrackets (lit ("[Interface]")) = lit ("Interface") from by decide]
  rw [if_neg (by decide)]

theorem stepLine_header_peer (st : PState) :
    stepLine st (lit ("[Peer]")) =
      { st with peers := st.peers ++ st.current_peer.toList,
                current_section := lit ("Peer"),
                current_peer := some (newPeer st.last_comment),
                last_comment := none } := by
  rw [stepLine_header st (show trim (lit ("[Peer]")) = lit ("[Peer]")
        from by decide) (by decide) (by decide)]
  unfold headerStep
  rw [show trimBrackets (lit ("[Peer]")) = lit ("Peer") from by decide]
  rw [if_pos rfl]

theorem kvStep_interface (st : PState) (key v : Str)
    (hsec : st.current_section = lit ("Interface")) :
    kvStep st key v =
      { st with
        interface :=
          some (applyInterfaceKey (st.interface.getD defaultInterface) key v) } := by
  unfold kvStep
  rw [if_pos hsec]

theorem kvStep_peer (st : PState) (p : Peer) (key v : Str)
    (hsec : st.current_section = lit ("Peer")) (hp : st.current_peer = some p) :
    kvStep st key v = { st with current_peer := some (applyPeerKey p key v) } := by
  unfold kvStep
  rw [if_neg (by rw [hsec]; decide), if_pos hsec, hp]

theorem applyInterfaceKey_pk (i : Interface) (v : Str) :
    applyInterfaceKey i (lit ("PrivateKey")) v = { i with private_key := v } := by
  unfold applyInterfaceKey
  rw [if_pos rfl]

theorem applyInterfaceKey_addr (i : Interface) (v : Str) :
    applyInterfaceKey i (lit ("Address")) v = { i with address := v } := by
  unfold applyInterfaceKey
  rw [if_neg (by decide), if_pos rfl]

theorem applyInterfaceKey_port (i : Interface) (v : Str) :
    applyInterfaceKey i (lit ("ListenPort")) v =
      { i with listen_port := (parseU16 v).getD 51820 } := by
  unfold applyInterfaceKey
  rw [if_neg (by decide), if_neg (by decide), if_pos rfl]

theorem applyInterfaceKey_dns (i : Interface) (v : Str) :
    applyInterfaceKey i (lit ("DNS")) v = { i with dns := some v } := by
  unfold applyInterfaceKey
  rw [if_neg (by decide), if_neg (by decide), if_neg (by decide), if_pos rfl]

theorem applyInterfaceKey_up (i : Interface) (v : Str) :
    applyInterfaceKey i (lit ("PostUp")) v = { i with post_up := some v } := by
  unfold applyInterfaceKey
  rw [if_neg (by decide), if_neg (by decide), if_neg (by decide),
      if_neg (by decide), if_pos rfl]

theorem applyInterfaceKey_down (i : Interface) (v : Str) :
    applyInterfaceKey i (lit ("PostDown")) v = { i with post_down := some v } := by
  unfold applyInterfaceKey
  rw [if_neg (by decide), if_neg (by decide), if_neg (by decide),
      if_neg (by decide), if_neg (by decide), if_pos rfl]

theorem applyPeerKey_pub (p : Peer) (v : Str) :
    applyPeerKey p (lit ("PublicKey")) v = { p with public_key := v } := by
  unfold applyPeerKey
  rw [if_pos rfl]

theorem applyPeerKey_ips (p : Peer) (v : Str) :
    applyPeerKey p (lit ("AllowedIPs")) v = { p with allowed_ips := v } := by
  unfold applyPeerKey
  rw [if_neg (by decide), if_pos rfl]

theorem applyPeerKey_keep (p : Peer) (v : Str) :
    applyPeerKey p (lit ("PersistentKeepalive")) v =
      { p with persistent_keepalive := parseU16 v } := by
  unfold applyPeerKey
  rw [if_neg (by decide), if_neg (by decide), if_pos rfl]

theorem applyPeerKey_end (p : Peer) (v : Str) :
    applyPeerKey p (lit ("Endpoint")) v = { p with endpoint := some v } := by
  unfold applyPeerKey
  rw [if_neg (by decide), if_neg (by decide), if_neg (by decide), if_pos rfl]

theorem normalO_some {s : Str} (h : normalO (some s)) : normal s := h

theorem step_privatekey (st : PState) (v : Str)
    (hsec : st.current_section = lit ("Interface")) (hv : trim v = v) :
    stepLine st (kvL (lit ("PrivateKey")) v) =
      { st with
        interface :=
          some { st.interface.getD defaultInterface with private_key := v } } := by
  rw [show kvL (lit ("PrivateKey")) v
        = 'P' :: (lit ("rivateKey") ++ ' ' :: '=' :: ' ' :: v) from rfl]
  rw [stepLine_kv st 'P' (lit ("rivateKey")) v (by decide) (by decide) (by decide)
        (by decide) (by decide) hv]
  rw [show ('P' :: lit ("rivateKey") : Str) = lit ("PrivateKey") from rfl]
  rw [kvStep_interface st _ v hsec, applyInterfaceKey_pk]

theorem step_address (st : PState) (v : Str)
    (hsec : st.current_section = lit ("Interface")) (hv : trim v = v) :
    stepLine st (kvL (lit ("Address")) v) =
      { st with
        interface :=
          some { st.interface.getD defaultInterface with address := v } } := by
  rw [show kvL (lit ("Address")) v
        = 'A' :: (lit ("ddress") ++ ' ' :: '=' :: ' ' :: v) from rfl]
  rw [stepLine_kv st 'A' (lit ("ddress")) v (by decide) (by decide) (by decide)
        (by decide) (by decide) hv]
  rw [show ('A' :: lit ("ddress") : Str) = lit ("Address") from rfl]
  rw [kvStep_interface st _ v hsec, applyInterfaceKey_addr]

theorem step_listenport (st : PState) (v : Str)
    (hsec : st.current_section = lit ("Interface")) (hv : trim v = v) :
    stepLine st (kvL (lit ("ListenPort")) v) =
      { st with
        interface :=
          some { st.interface.getD defaultInterface with
                 listen_port := (parseU16 v).getD 51820 } } := by
  rw [show kvL (lit ("ListenPort")) v
        = 'L' :: (lit ("istenPort") ++ ' ' :: '=' :: ' ' :: v) from rfl]
  rw [stepLine_kv st 'L' (lit ("istenPort")) v (by decide) (by decide) (by decide)
        (by decide) (by decide) hv]
  rw [show ('L' :: lit ("istenPort") : Str) = lit ("ListenPort") from rfl]
  rw [kvStep_interface st _ v hsec, applyInterfaceKey_port]

theorem step_dns (st : PState) (v : Str)
    (hsec : st.current_section = lit ("Interface")) (hv : trim v = v) :
    stepLine st (kvL (lit ("DNS")) v) =
      { st with
        interface :=
          some { st.interface.getD defaultInterface with dns := some v } } := by
  rw [show kvL (lit ("DNS")) v
        = 'D' :: (lit ("NS") ++ ' ' :: '=' :: ' ' :: v) from rfl]
  rw [stepLine_kv st 'D' (lit ("NS")) v (by decide) (by decide) (by decide)
        (by decide) (by decide) hv]
  rw [show ('D' :: lit ("NS") : Str) = lit ("DNS") from rfl]
  rw [kvStep_interface st _ v hsec, applyInterfaceKey_dns]

theorem step_postup (st : PState) (v : Str)
    (hsec : st.current_section = lit ("Interface")) (hv : trim v = v) :
    stepLine st (kvL (lit ("PostUp")) v) =
      { st with
        interface :=
          some { st.interface.getD defaultInterface with post_up := some v } } := by
  rw [show kvL (lit ("PostUp")) v
        = 'P' :: (lit ("ostUp") ++ ' ' :: '=' :: ' ' :: v) from rfl]
  rw [stepLine_kv st 'P' (lit ("ostUp")) v (by decide) (by decide) (by decide)
        (by decide) (by decide) hv]
  rw [show ('P' :: lit ("ostUp") : Str) = lit ("PostUp") from rfl]
  rw [kvStep_interface st _ v hsec, applyInterfaceKey_up]

theorem step_postdown (st : PState) (v : Str)
    (hsec : st.current_section = lit ("Interface")) (hv : trim v = v) :
    stepLine st (kvL (lit ("PostDown")) v) =
      { st with
        interface :=
          some { st.interface.getD defaultInterface with
                 post_down := some v } } := by
  rw [show kvL (lit ("PostDown")) v
        = 'P' :: (lit ("ostDown") ++ ' ' :: '=' :: ' ' :: v) from rfl]
  rw [stepLine_kv st 'P' (lit ("ostDown")) v (by decide) (by decide) (by decide)
        (by decide) (by decide) hv]
  rw [show ('P' :: lit ("ostDown") : Str) = lit ("PostDown") from rfl]
  rw [kvStep_interface st _ v hsec, applyInterfaceKey_down]

theorem step_publickey (st : PState) (p : Peer) (v : Str)
    (hsec : st.current_section = lit ("Peer")) (hp : st.current_peer = some p)
    (hv : trim v = v) :
    stepLine st (kvL (lit ("PublicKey")) v) =
      { st with current_peer := some { p with public_key := v } } := by
  rw [show kvL (lit ("PublicKey")) v
        = 'P' :: (lit ("ublicKey") ++ ' ' :: '=' :: ' ' :: v) from rfl]
  rw [stepLine_kv st 'P' (lit ("ublicKey")) v (by decide) (by decide) (by decide)
        (by decide) (by decide) hv]
  rw [show ('P' :: lit ("ublicKey") : Str) = lit ("PublicKey") from rfl]
  rw [kvStep_peer st p _ v hsec hp, applyPeerKey_pub]

theorem step_allowedips (st : PState) (p : Peer) (v : Str)
    (hsec : st.current_section = lit ("Peer")) (hp : st.current_peer = some p)
    (hv : trim v = v) :
    stepLine st (kvL (lit ("AllowedIPs")) v) =
      { st with current_peer := some { p with allowed_ips := v } } := by
  rw [show kvL (lit ("AllowedIPs")) v
        = 'A' :: (lit ("llowedIPs") ++ ' ' :: '=' :: ' ' :: v) from rfl]
  rw [stepLine_kv st 'A' (lit ("llowedIPs")) v (by decide) (by decide) (by decide)
        (by decide) (by decide) hv]
  rw [show ('A' :: lit ("llowedIPs") : Str) = lit ("AllowedIPs") from rfl]
  rw [kvStep_peer st p _ v hsec hp, applyPeerKey_ips]

theorem step_keepalive (st : PState) (p : Peer) (v : Str)
    (hsec : st.current_section = lit ("Peer")) (hp : st.current_peer = some p)
    (hv : trim v = v) :
    stepLine st (kvL (lit ("PersistentKeepalive")) v) =
      { st with
        current_peer := some { p with persistent_keepalive := parseU16 v } } := by
  rw [show kvL (lit ("PersistentKeepalive")) v
        = 'P' :: (lit ("ersistentKeepalive") ++ ' ' :: '=' :: ' ' :: v) from rfl]
  rw [stepLine_kv st 'P' (lit ("ersistentKeepalive")) v (by decide) (by decide)
        (by decide) (by decide) (by decide) hv]
  rw [show ('P' :: lit ("ersistentKeepalive") : Str)
        = lit ("PersistentKeepalive") from rfl]
  rw [kvStep_peer st p _ v hsec hp, applyPeerKey_keep]

theorem step_endpoint (st : PState) (p : Peer) (v : Str)
    (hsec : st.current_section = lit ("Peer")) (hp : st.current_peer = some p)
    (hv : trim v = v) :
    stepLine st (kvL (lit ("Endpoint")) v) =
      { st with current_peer := some { p with endpoint := some v } } := by
  rw [show kvL (lit ("Endpoint")) v
        = 'E' :: (lit ("ndpoint") ++ ' ' :: '=' :: ' ' :: v) from rfl]
  rw [stepLine_kv st 'E' (lit ("ndpoint")) v (by decide) (by decide) (by decide)
        (by decide) (by decide) hv]
  rw [show ('E' :: lit ("ndpoint") : Str) = lit ("Endpoint") from rfl]
  rw [kvStep_peer st p _ v hsec hp, applyPeerKey_end]

theorem step_name_comment (st : PState) (nm : Str) (hn : trim nm = nm) :
    stepLine st ('#' :: ' ' :: nm) = { st with last_comment := some nm } := by
  by_cases h0 : nm = []
  · subst h0
    rw [stepLine_comment st (show trim ('#' :: ' ' :: ([] : Str)) = '#' :: []
          from by decide)]
    rw [show trim (dropHashes ('#' :: ([] : Str))) = [] from by decide]
  · have htr : trim ('#' :: ' ' :: nm) = '#' :: ' ' :: nm := by
      rw [trim_cons_nonws _ (by decide),
          show (' ' :: nm : Str) = [' '] ++ nm by simp,
          trimEnd_append_right _ _ (trimEnd_eq_self_of_trim hn) h0]
    rw [stepLine_comment st htr]
    have hdrop : dropHashes ('#' :: ' ' :: nm) = ' ' :: nm := by
      unfold dropHashes
      rw [List.dropWhile_cons, if_pos (by decide), List.dropWhile_cons,
          if_neg (by decide)]
    rw [hdrop, trim_cons_ws _ (by decide), hn]

theorem foldl_interfaceLines (i : Interface) (hw : WfInterface i) :
    List.foldl stepLine initState (interfaceLines i) =
      { interface := some i, peers := [], current_section := lit ("Interface"),
        current_peer := none, last_comment := none } := by
  obtain ⟨pk, addr, port, dns0, pup, pdn⟩ := i
  obtain ⟨h1, h2, h3, h4, h5, h6⟩ := hw
  unfold interfaceLines
  rw [List.foldl_append, List.foldl_append, List.foldl_append]
  rw [List.foldl_cons, stepLine_header_interface,
      List.foldl_cons, step_privatekey _ _ rfl h1.1,
      List.foldl_cons, step_address _ _ rfl h2.1,
      List.foldl_cons, step_listenport _ _ rfl (toDecimal_normal _).1,
      List.foldl_nil, parseU16_toDecimal h3]
  cases dns0 with
  | none =>
    rw [show optList (kvL (lit ("DNS"))) none = ([] : List Str) from rfl,
        List.foldl_nil]
    cases pup with
    | none =>
      rw [show optList (kvL (lit ("PostUp"))) none = ([] : List Str) from rfl,
          List.foldl_nil]
      cases pdn with
      | none =>
        rw [show optList (kvL (lit ("PostDown"))) none = ([] : List Str)
              from rfl, List.foldl_nil]
        rfl
      | some w =>
        rw [show optList (kvL (lit ("PostDown"))) (some w)
              = [kvL (lit ("PostDown")) w] from rfl,
            List.foldl_cons, step_postdown _ _ rfl (normalO_some h6).1,
            List.foldl_nil]
        rfl
    | some u =>
      rw [show optList (kvL (lit ("PostUp"))) (some u)
            = [kvL (lit ("PostUp")) u] from rfl,
          List.foldl_cons, step_postup _ _ rfl (normalO_some h5).1,
          List.foldl_nil]
      cases pdn with
      | none =>
        rw [show optList (kvL (lit ("PostDown"))) none = ([] : List Str)
              from rfl, List.foldl_nil]
        rfl
      | some w =>
        rw [show optList (kvL (lit ("PostDown"))) (some w)
              = [kvL (lit ("PostDown")) w] from rfl,
            List.foldl_cons, step_postdown _ _ rfl (normalO_some h6).1,
            List.foldl_nil]
        rfl
  | some d =>
    rw [show optList (kvL (lit ("DNS"))) (some d)
          = [kvL (lit ("DNS")) d] from rfl,
        List.foldl_cons, step_dns _ _ rfl (normalO_some h4).1,
        List.foldl_nil]
    cases pup with
    | none =>
      rw [show optList (kvL (lit ("PostUp"))) none = ([] : List Str) from rfl,
          List.foldl_nil]
      cases pdn with
      | none =>
        rw [show optList (kvL (lit ("PostDown"))) none = ([] : List Str)
              from rfl, List.foldl_nil]
        rfl
      | some w =>
        rw [show optList (kvL (lit ("PostDown"))) (some w)
              = [kvL (lit ("PostDown")) w] from rfl,
            List.foldl_cons, step_postdown _ _ rfl (normalO_some h6).1,
            List.foldl_nil]
        rfl
    | some u =>
      rw [show optList (kvL (lit ("PostUp"))) (some u)
            = [kvL (lit ("PostUp")) u] from rfl,
          List.foldl_cons, step_postup _ _ rfl (normalO_some h5).1,
          List.foldl_nil]
      cases pdn with
      | none =>
        rw [show optList (kvL (lit ("PostDown"))) none = ([] : List Str)
              from rfl, List.foldl_nil]
        rfl
      | some w =>
        rw [show optList (kvL (lit ("PostDown"))) (some w)
              = [kvL (lit ("PostDown")) w] from rfl,
            List.foldl_cons, step_postdown _ _ rfl (normalO_some h6).1,
            List.foldl_nil]
        rfl

theorem foldl_peerLines (st : PState) (p : Peer) (hp : WfPeer p)
    (hlc : st.last_comment = none) :
    List.foldl stepLine st (peerLines p) =
      { st with peers := st.peers ++ st.current_peer.toList,
                current_section := lit ("Peer"),
                current_peer := some p,
                last_comment := none } := by
  obtain ⟨pub, ips, keep, endp, nm⟩ := p
  obtain ⟨g1, g2, g3, g4, g5⟩ := hp
  cases nm with
  | none =>
    cases keep with
    | none =>
      cases endp with
      | none =>
        rw [show peerLines
              { public_key := pub, allowed_ips := ips,
                persistent_keepalive := none, endpoint := none, name := none }
              = ([] : Str) ::
              lit ("[Peer]") ::
              kvL (lit ("PublicKey")) pub ::
              [kvL (lit ("AllowedIPs")) ips] from rfl]
        rw [List.foldl_cons, stepLine_blank st (by rfl)]
        rw [List.foldl_cons, stepLine_header_peer, hlc]
        rw [List.foldl_cons, step_publickey _ _ _ rfl rfl g1.1]
        rw [List.foldl_cons, step_allowedips _ _ _ rfl rfl g2.1]
        rw [List.foldl_nil]
        rfl
      | some e =>
        rw [show peerLines
              { public_key := pub, allowed_ips := ips,
                persistent_keepalive := none, endpoint := some e, name := none }
              = ([] : Str) ::
              lit ("[Peer]") ::
              kvL (lit ("PublicKey")) pub ::
              kvL (lit ("AllowedIPs")) ips ::
              [kvL (lit ("Endpoint")) e] from rfl]
        rw [List.foldl_cons, stepLine_blank st (by rfl)]
        rw [List.foldl_cons, stepLine_header_peer, hlc]
        rw [List.foldl_cons, step_publickey _ _ _ rfl rfl g1.1]
        rw [List.foldl_cons, step_allowedips _ _ _ rfl rfl g2.1]
        rw [List.foldl_cons, step_endpoint _ _ _ rfl rfl (normalO_some g4).1]
        rw [List.foldl_nil]
        rfl
    | some kk =>
      cases endp with
      | none =>
        rw [show peerLines
              { public_key := pub, allowed_ips := ips,
                persistent_keepalive := some kk, endpoint := none, name := none }
              = ([] : Str) ::
              lit ("[Peer]") ::
              kvL (lit ("PublicKey")) pub ::
              kvL (lit ("AllowedIPs")) ips ::
              [kvL (lit ("PersistentKeepalive")) (toDecimal kk)] from rfl]
        rw [List.foldl_cons, stepLine_blank st (by rfl)]
        rw [List.foldl_cons, stepLine_header_peer, hlc]
        rw [List.foldl_cons, step_publickey _ _ _ rfl rfl g1.1]
        rw [List.foldl_cons, step_allowedips _ _ _ rfl rfl g2.1]
        rw [List.foldl_cons, step_keepalive _ _ _ rfl rfl (toDecimal_normal _).1,
            parseU16_toDecimal (g3 kk rfl)]
        rw [List.foldl_nil]
        rfl
      | some e =>
        rw [show peerLines
              { public_key := pub, allowed_ips := ips,
                persistent_keepalive := some kk, endpoint := some e, name := none }
              = ([] : Str) ::
              lit ("[Peer]") ::
              kvL (lit ("PublicKey")) pub ::
              kvL (lit ("AllowedIPs")) ips ::
              kvL (lit ("PersistentKeepalive")) (toDecimal kk) ::
              [kvL (lit ("Endpoint")) e] from rfl]
        rw [List.foldl_cons, stepLine_blank st (by rfl)]
        rw [List.foldl_cons, stepLine_header_peer, hlc]
        rw [List.foldl_cons, step_publickey _ _ _ rfl rfl g1.1]
        rw [List.foldl_cons, step_allowedips _ _ _ rfl rfl g2.1]
        rw [List.foldl_cons, step_keepalive _ _ _ rfl rfl (toDecimal_normal _).1,
            parseU16_toDecimal (g3 kk rfl)]
        rw [List.foldl_cons, step_endpoint _ _ _ rfl rfl (normalO_some g4).1]
        rw [List.foldl_nil]
        rfl
  | some nmv =>
    cases keep with
    | none =>
      cases endp with
      | none =>
        rw [show peerLines
              { public_key := pub, allowed_ips := ips,
                persistent_keepalive := none, endpoint := none, name := some nmv }
              = ([] : Str) ::
              ('#' :: ' ' :: nmv) ::
              lit ("[Peer]") ::
              kvL (lit ("PublicKey")) pub ::
              [kvL (lit ("AllowedIPs")) ips] from rfl]
        rw [List.foldl_cons, stepLine_blank st (by rfl)]
        rw [List.foldl_cons, step_name_comment st nmv (normalO_some g5).1]
        rw [List.foldl_cons, stepLine_header_peer]
        rw [List.foldl_cons, step_publickey _ _ _ rfl rfl g1.1]
        rw [List.foldl_cons, step_allowedips _ _ _ rfl rfl g2.1]
        rw [List.foldl_nil]
        rfl
      | some e =>
        rw [show peerLines
              { public_key := pub, allowed_ips := ips,
                persistent_keepalive := none, endpoint := some e, name := some nmv }
              = ([] : Str) ::
              ('#' :: ' ' :: nmv) ::
              lit ("[Peer]") ::
              kvL (lit ("PublicKey")) pub ::
              kvL (lit ("AllowedIPs")) ips ::
              [kvL (lit ("Endpoint")) e] from rfl]
        rw [List.foldl_cons, stepLine_blank st (by rfl)]
        rw [List.foldl_cons, step_name_comment st nmv (normalO_some g5).1]
        rw [List.foldl_cons, stepLine_header_peer]
        rw [List.foldl_cons, step_publickey _ _ _ rfl rfl g1.1]
        rw [List.foldl_cons, step_allowedips _ _ _ rfl rfl g2.1]
        rw [List.foldl_cons, step_endpoint _ _ _ rfl rfl (normalO_some g4).1]
        rw [List.foldl_nil]
        rfl
    | some kk =>
      cases endp with
      | none =>
        rw [show peerLines
              { public_key := pub, allowed_ips := ips,
                persistent_keepalive := some kk, endpoint := none, name := some nmv }
              = ([] : Str) ::
              ('#' :: ' ' :: nmv) ::
              lit ("[Peer]") ::
              kvL (lit ("PublicKey")) pub ::
              kvL (lit ("AllowedIPs")) ips ::
              [kvL (lit ("PersistentKeepalive")) (toDecimal kk)] from rfl]
        rw [List.foldl_cons, stepLine_blank st (by rfl)]
        rw [List.foldl_cons, step_name_comment st nmv (normalO_some g5).1]
        rw [List.foldl_cons, stepLine_header_peer]
        rw [List.foldl_cons, step_publickey _ _ _ rfl rfl g1.1]
        rw [List.foldl_cons, step_allowedips _ _ _ rfl rfl g2.1]
        rw [List.foldl_cons, step_keepalive _ _ _ rfl rfl (toDecimal_normal _).1,
            parseU16_toDecimal (g3 kk rfl)]
        rw [List.foldl_nil]
        rfl
      | some e =>
        rw [show peerLines
              { public_key := pub, allowed_ips := ips,
                persistent_keepalive := some kk, endpoint := some e, name := some nmv }
              = ([] : Str) ::
              ('#' :: ' ' :: nmv) ::
              lit ("[Peer]") ::
              kvL (lit ("PublicKey")) pub ::
              kvL (lit ("AllowedIPs")) ips ::
              kvL (lit ("PersistentKeepalive")) (toDecimal kk) ::
              [kvL (lit ("Endpoint")) e] from rfl]
        rw [List.foldl_cons, stepLine_blank st (by rfl)]
        rw [List.foldl_cons, step_name_comment st nmv (normalO_some g5).1]
        rw [List.foldl_cons, stepLine_header_peer]
        rw [List.foldl_cons, step_publickey _ _ _ rfl rfl g1.1]
        rw [List.foldl_cons, step_allowedips _ _ _ rfl rfl g2.1]
        rw [List.foldl_cons, step_keepalive _ _ _ rfl rfl (toDecimal_normal _).1,
            parseU16_toDecimal (g3 kk rfl)]
        rw [List.foldl_cons, step_endpoint _ _ _ rfl rfl (normalO_some g4).1]
        rw [List.foldl_nil]
        rfl

theorem foldl_allPeers (ps : List Peer) : ∀ (st : PState),
    (∀ p ∈ ps, WfPeer p) → st.last_comment = none →
    (List.foldl stepLine st ((ps.map peerLines).flatten)).interface
        = st.interface ∧
    (List.foldl stepLine st ((ps.map peerLines).flatten)).peers
        ++ (List.foldl stepLine st
              ((ps.map peerLines).flatten)).current_peer.toList
      = st.peers ++ st.current_peer.toList ++ ps := by
  induction ps with
  | nil =>
    intro st _ _
    simp
  | cons p t ih =>
    intro st hw hlc
    rw [List.map_cons, List.flatten_cons, List.foldl_append]
    rw [foldl_peerLines st p (hw p (List.mem_cons_self _ _)) hlc]
    obtain ⟨ha, hb⟩ := ih
      { st with peers := st.peers ++ st.current_peer.toList,
                current_section := lit ("Peer"),
                current_peer := some p,
                last_comment := none }
      (fun q hq => hw q (List.mem_cons_of_mem p hq)) rfl
    refine ⟨?_, ?_⟩
    · rw [ha]
    · rw [hb]
      simp

/-- Parsing the serialized text of a well-formed config restores the
interface and peers exactly (the name and path are the arguments of the
parse call). -/
theorem parse_serialize (c : WgConfig) (hw : WfConfig c) (n pa : Str) :
    parse_config_content n pa (serialize_config c) =
      .ok { name := n, path := pa, interface := c.interface,
            peers := c.peers } := by
  unfold parse_config_content
  rw [rustLines_serialize c hw]
  unfold configLines
  rw [List.foldl_append, foldl_interfaceLines c.interface hw.1]
  obtain ⟨ha, hb⟩ := foldl_allPeers c.peers
    { interface := some c.interface, peers := [],
      current_section := lit ("Interface"), current_peer := none,
      last_comment := none } hw.2 rfl
  set st := List.foldl stepLine
      { interface := some c.interface, peers := [],
        current_section := lit ("Interface"), current_peer := none,
        last_comment := none } ((c.peers.map peerLines).flatten) with hst
  have hi : st.interface = some c.interface := ha
  have hp : st.peers ++ st.current_peer.toList = c.peers := by
    rw [hb]
    simp
  show (match st.interface with
        | none =>
            (Except.error (lit ("No [Interface] section found"))
              : Except Str WgConfig)
        | some i =>
            Except.ok
              ({ name := n, path := pa, interface := i,
                 peers := st.peers ++ st.current_peer.toList } : WgConfig))
      = Except.ok
          ({ name := n, path := pa, interface := c.interface,
             peers := c.peers } : WgConfig)
  rw [hi, hp]

/-! ## The parser only produces well-formed configs -/

theorem parseU16_getD_le (v : Str) : (parseU16 v).getD 51820 ≤ 65535 := by
  cases hp : parseU16 v with
  | none => simp
  | some k =>
    simp only [Option.getD]
    exact parseU16_le hp

theorem applyInterfaceKey_wf (i : Interface) (key v : Str)
    (hi : WfInterface i) (hv : normal v) :
    WfInterface (applyInterfaceKey i key v) := by
  obtain ⟨h1, h2, h3, h4, h5, h6⟩ := hi
  unfold applyInterfaceKey
  split
  · exact ⟨hv, h2, h3, h4, h5, h6⟩
  split
  · exact ⟨h1, hv, h3, h4, h5, h6⟩
  split
  · exact ⟨h1, h2, parseU16_getD_le v, h4, h5, h6⟩
  split
  · exact ⟨h1, h2, h3, hv, h5, h6⟩
  split
  · exact ⟨h1, h2, h3, h4, hv, h6⟩
  split
  · exact ⟨h1, h2, h3, h4, h5, hv⟩
  · exact ⟨h1, h2, h3, h4, h5, h6⟩

theorem applyPeerKey_wf (p : Peer) (key v : Str)
    (hp : WfPeer p) (hv : normal v) : WfPeer (applyPeerKey p key v) := by
  obtain ⟨g1, g2, g3, g4, g5⟩ := hp
  unfold applyPeerKey
  split
  · exact ⟨hv, g2, g3, g4, g5⟩
  split
  · exact ⟨g1, hv, g3, g4, g5⟩
  split
  · exact ⟨g1, g2, fun k hk => parseU16_le hk, g4, g5⟩
  split
  · exact ⟨g1, g2, g3, hv, g5⟩
  · exact ⟨g1, g2, g3, g4, g5⟩

/-- Invariants of the loop state: every record already built is
well-formed, and the pending comment is a normal string. -/
def WfState (st : PState) : Prop :=
  (∀ i, st.interface = some i → WfInterface i) ∧
  (∀ p ∈ st.peers, WfPeer p) ∧
  (∀ p, st.current_peer = some p → WfPeer p) ∧
  (∀ s, st.last_comment = some s → normal s)

theorem defaultInterface_wf : WfInterface defaultInterface := by
  exact ⟨⟨rfl, by decide⟩, ⟨rfl, by decide⟩, by decide, trivial, trivial,
    trivial⟩

theorem newPeer_wf (o : Option Str) (ho : ∀ s, o = some s → normal s) :
    WfPeer (newPeer o) := by
  refine ⟨⟨rfl, by simp [newPeer]⟩, ⟨rfl, by simp [newPeer]⟩, ?_, trivial, ?_⟩
  · intro k hk
    simp [newPeer] at hk
  · cases o with
    | none => trivial
    | some s => exact ho s rfl

theorem stepLine_wf (st : PState) (raw : Str) (hnl : '\n' ∉ raw)
    (hst : WfState st) : WfState (stepLine st raw) := by
  have hnt : '\n' ∉ trim raw := fun h => hnl (mem_of_mem_trim h)
  unfold stepLine
  generalize hline : trim raw = line at hnt ⊢
  clear hline hnl
  unfold stepTrimmed
  by_cases h1 : line.isEmpty = true
  · rw [if_pos h1]
    exact hst
  rw [if_neg h1]
  obtain ⟨w1, w2, w3, w4⟩ := hst
  by_cases h2 : startsWithChar '#' line = true
  · rw [if_pos h2]
    refine ⟨w1, w2, w3, ?_⟩
    intro s hs
    injection hs with hs'
    subst hs'
    refine ⟨trim_idem _, ?_⟩
    intro hm
    exact hnt ((List.dropWhile_sublist _).mem (mem_of_mem_trim hm))
  rw [if_neg h2]
  by_cases h3 : (startsWithChar '[' line && endsWithChar ']' line) = true
  · rw [if_pos h3]
    simp only [headerStep]
    have hpeers : ∀ p ∈ st.peers ++ st.current_peer.toList, WfPeer p := by
      intro p hp
      rcases List.mem_append.mp hp with h | h
      · exact w2 p h
      · cases hcp : st.current_peer with
        | none => rw [hcp] at h; simp at h
        | some q =>
          rw [hcp] at h
          simp at h
          subst h
          exact w3 p hcp
    split
    · refine ⟨w1, hpeers, ?_, ?_⟩
      · intro p hp
        injection hp with hp'
        subst hp'
        exact newPeer_wf _ w4
      · intro s hs
        simp at hs
    · refine ⟨w1, hpeers, ?_, w4⟩
      intro p hp
      simp at hp
  rw [if_neg h3]
  cases hsp : splitOnce '=' line with
  | none => exact ⟨w1, w2, w3, w4⟩
  | some kv =>
    obtain ⟨k, v⟩ := kv
    have hvn : normal (trim v) := by
      refine ⟨trim_idem _, ?_⟩
      intro hm
      apply hnt
      rw [splitOnce_eq_some hsp]
      exact List.mem_append.mpr (Or.inr (List.mem_cons_of_mem _
        (mem_of_mem_trim hm)))
    show WfState (kvStep st (trim k) (trim v))
    unfold kvStep
    by_cases hI : st.current_section = lit ("Interface")
    · rw [if_pos hI]
      refine ⟨?_, w2, w3, w4⟩
      intro i hi
      injection hi with hi'
      subst hi'
      refine applyInterfaceKey_wf _ _ _ ?_ hvn
      cases hio : st.interface with
      | none => exact defaultInterface_wf
      | some j => exact w1 j hio
    rw [if_neg hI]
    by_cases hP : st.current_section = lit ("Peer")
    · rw [if_pos hP]
      cases hcp : st.current_peer with
      | none => exact ⟨w1, w2, w3, w4⟩
      | some p =>
        refine ⟨w1, w2, ?_, w4⟩
        intro q hq
        injection hq with hq'
        subst hq'
        exact applyPeerKey_wf _ _ _ (w3 p hcp) hvn
    · rw [if_neg hP]
      exact ⟨w1, w2, w3, w4⟩

theorem initState_wf : WfState initState := by
  refine ⟨?_, ?_, ?_, ?_⟩
  · intro i h
    exact absurd h (by simp [initState])
  · intro p h
    exact absurd h (by simp [initState])
  · intro p h
    exact absurd h (by simp [initState])
  · intro s h
    exact absurd h (by simp [initState])

theorem foldl_wf (lines : List Str) : ∀ st, (∀ l ∈ lines, '\n' ∉ l) →
    WfState st → WfState (List.foldl stepLine st lines) := by
  induction lines with
  | nil => intro st _ h; exact h
  | cons l t ih =>
    intro st hnl h
    rw [List.foldl_cons]
    exact ih _ (fun q hq => hnl q (List.mem_cons_of_mem l hq))
      (stepLine_wf st l (hnl l (List.mem_cons_self _ _)) h)

/-- `parse_config_content`, with the two local bindings inlined. -/
theorem parse_config_content_eq (n pa content : Str) :
    parse_config_content n pa content =
      match (List.foldl stepLine initState (rustLines content)).interface with
      | none => Except.error (lit ("No [Interface] section found"))
      | some i =>
          Except.ok
            { name := n, path := pa, interface := i,
              peers :=
                (List.foldl stepLine initState (rustLines content)).peers
                ++ (List.foldl stepLine initState
                      (rustLines content)).current_peer.toList } := rfl

theorem parse_wf {n pa content : Str} {c : WgConfig}
    (h : parse_config_content n pa content = .ok c) : WfConfig c := by
  have hwf : WfState (List.foldl stepLine initState (rustLines content)) :=
    foldl_wf (rustLines content) initState (rustLines_no_nl content)
      initState_wf
  obtain ⟨w1, w2, w3, w4⟩ := hwf
  rw [parse_config_content_eq] at h
  cases hio : (List.foldl stepLine initState (rustLines content)).interface with
  | none =>
    rw [hio] at h
    simp at h
  | some i =>
    rw [hio] at h
    simp only [Except.ok.injEq] at h
    subst h
    refine ⟨w1 i hio, ?_⟩
    intro p hp
    rcases List.mem_append.mp hp with h | h
    · exact w2 p h
    · cases hcp : (List.foldl stepLine initState
          (rustLines content)).current_peer with
      | none => rw [hcp] at h; simp at h
      | some q =>
        rw [hcp] at h
        simp at h
        subst h
        exact w3 p hcp

/-! ## The claims -/

/-- C1: for every `WgConfig` returned by a successful parse, re-parsing
the serialized text (with the same logical name and path supplied to both
calls) yields the same config field-for-field: same interface fields and
the same peer sequence in the same order with all optional fields
preserved. -/
theorem parse_serialize_roundtrip (n pa content : Str) (c : WgConfig)
    (h : parse_config_content n pa content = .ok c) :
    parse_config_content n pa (serialize_config c) = .ok c := by
  have hw : WfConfig c := parse_wf h
  rw [parse_config_content_eq] at h
  cases hio : (List.foldl stepLine initState (rustLines content)).interface with
  | none =>
    rw [hio] at h
    simp at h
  | some i =>
    rw [hio] at h
    simp only [Except.ok.injEq] at h
    subst h
    rw [parse_serialize _ hw]

/-- A concrete config used to witness the round-trip claim. -/
def roundtripInput : Str :=
  lit ("[Interface]\nPrivateKey = abc\nAddress = 10.0.0.1/24\nDNS = 1.1.1.1\n\n# laptop\n[Peer]\nPublicKey = pk1\nAllowedIPs = 10.0.0.2/32\nPersistentKeepalive = 25\n\n[Peer]\nPublicKey = pk2\nAllowedIPs = 10.0.0.3/32\nEndpoint = vpn.example.com:51820\n")

/-- The config parsed from `roundtripInput`. -/
def roundtripConfig : WgConfig :=
  { name := lit ("wg0"), path := lit ("/etc/wireguard/wg0.conf"),
    interface :=
      { private_key := lit ("abc"), address := lit ("10.0.0.1/24"),
        listen_port := 51820, dns := some (lit ("1.1.1.1")),
        post_up := none, post_down := none },
    peers :=
      [{ public_key := lit ("pk1"), allowed_ips := lit ("10.0.0.2/32"),
         persistent_keepalive := some 25, endpoint := none,
         name := some (lit ("laptop")) },
       { public_key := lit ("pk2"), allowed_ips := lit ("10.0.0.3/32"),
         persistent_keepalive := none,
         endpoint := some (lit ("vpn.example.com:51820")), name := none }] }

theorem parse_serialize_roundtrip_witness :
    parse_config_content (lit ("wg0")) (lit ("/etc/wireguard/wg0.conf"))
        roundtripInput = .ok roundtripConfig
    ∧ parse_config_content (lit ("wg0")) (lit ("/etc/wireguard/wg0.conf"))
        (serialize_config roundtripConfig) = .ok roundtripConfig := by
  have h : parse_config_content (lit ("wg0")) (lit ("/etc/wireguard/wg0.conf"))
      roundtripInput = .ok roundtripConfig := by rfl
  exact ⟨h, parse_serialize_roundtrip _ _ _ _ h⟩

/-- C10: the parser is total with a single failure mode: for every name,
path and content, it returns either a config or the missing-interface
error. -/
theorem parse_total (n pa content : Str) :
    (∃ cfg, parse_config_content n pa content = .ok cfg) ∨
      parse_config_content n pa content
        = .error (lit ("No [Interface] section found")) := by
  rw [parse_config_content_eq]
  cases (List.foldl stepLine initState (rustLines content)).interface with
  | none => exact Or.inr rfl
  | some i => exact Or.inl ⟨_, rfl⟩

theorem replaceFirst_found : ∀ (pre post : List Peer) (q np : Peer) (pk : Str),
    q.public_key = pk → (∀ r ∈ pre, r.public_key ≠ pk) →
    replaceFirst (pre ++ q :: post) pk np = some (pre ++ np :: post) := by
  intro pre
  induction pre with
  | nil =>
    intro post q np pk hq _
    rw [List.nil_append]
    simp only [replaceFirst]
    rw [if_pos hq]
    simp
  | cons r rs ih =>
    intro post q np pk hq hpre
    rw [List.cons_append]
    simp only [replaceFirst]
    rw [if_neg (hpre r (List.mem_cons_self _ _)),
        ih post q np pk hq (fun x hx => hpre x (List.mem_cons_of_mem r hx))]
    simp

theorem replaceFirst_notfound : ∀ (l : List Peer) (np : Peer) (pk : Str),
    (∀ r ∈ l, r.public_key ≠ pk) → replaceFirst l pk np = none := by
  intro l
  induction l with
  | nil => intro np pk _; rfl
  | cons r rs ih =>
    intro np pk hl
    simp only [replaceFirst]
    rw [if_neg (hl r (List.mem_cons_self _ _)),
        ih np pk (fun x hx => hl x (List.mem_cons_of_mem r hx))]

/-- C3: `update_peer` replaces exactly the first peer whose public key
matches, in place, leaving every other peer (including later duplicates)
untouched; when no peer matches it fails with the peer-not-found error
and no updated config is produced. -/
theorem update_peer_first_match :
    (∀ (c : WgConfig) (pk : Str) (np : Peer) (pre post : List Peer) (q : Peer),
        c.peers = pre ++ q :: post → q.public_key = pk →
        (∀ r ∈ pre, r.public_key ≠ pk) →
        update_peer c pk np = .ok { c with peers := pre ++ np :: post })
    ∧ (∀ (c : WgConfig) (pk : Str) (np : Peer),
        (∀ r ∈ c.peers, r.public_key ≠ pk) →
        update_peer c pk np = .error (lit ("Peer not found"))) := by
  constructor
  · intro c pk np pre post q hc hq hpre
    unfold update_peer
    rw [hc, replaceFirst_found pre post q np pk hq hpre]
  · intro c pk np hnone
    unfold update_peer
    rw [replaceFirst_notfound c.peers np pk hnone]

/-- The spec's example peers `A(key=1)`, `B(key=2)`, `A2(key=1)` and the
replacement peer `X`. -/
def peerA : Peer :=
  { public_key := lit ("1"), allowed_ips := lit ("a"),
    persistent_keepalive := none, endpoint := none, name := none }

def peerB : Peer :=
  { public_key := lit ("2"), allowed_ips := lit ("b"),
    persistent_keepalive := none, endpoint := none, name := none }

def peerA2 : Peer :=
  { public_key := lit ("1"), allowed_ips := lit ("a2"),
    persistent_keepalive := none, endpoint := none, name := none }

def peerX : Peer :=
  { public_key := lit ("9"), allowed_ips := lit ("x"),
    persistent_keepalive := none, endpoint := none, name := none }

def dupConfig : WgConfig :=
  { name := lit ("w"), path := lit ("p"),
    interface := defaultInterface, peers := [peerA, peerB, peerA2] }

theorem update_peer_first_match_witness :
    update_peer dupConfig (lit ("1")) peerX
        = .ok { dupConfig with peers := [peerX, peerB, peerA2] }
    ∧ update_peer dupConfig (lit ("3")) peerX
        = .error (lit ("Peer not found")) := by
  constructor
  · exact update_peer_first_match.1 dupConfig (lit ("1")) peerX [] [peerB, peerA2]
      peerA rfl rfl (by intro r hr; simp at hr)
  · exact update_peer_first_match.2 dupConfig (lit ("3")) peerX
      (by intro r hr; fin_cases hr <;> decide)

theorem rustRetain_eq_filter (keep : Peer → Bool) :
    ∀ l : List Peer, rustRetain keep l = l.filter keep := by
  intro l
  induction l with
  | nil => rfl
  | cons p ps ih =>
    unfold rustRetain
    rw [List.filter_cons]
    by_cases h : keep p = true
    · rw [if_pos h, if_pos h, ih]
    · rw [if_neg h, if_neg h, ih]

/-- C4: `delete_peer` never fails and filters out every peer whose public
key equals the given key (not just the first), preserving the relative
order of the remaining peers; when no peer matches, the list is
unchanged. -/
theorem delete_peer_all_matches (c : WgConfig) (pk : Str) :
    delete_peer c pk = .ok
        { c with
          peers := c.peers.filter
            (fun p => if p.public_key = pk then false else true) }
    ∧ (c.peers.filter
        (fun p => if p.public_key = pk then false else true)).Sublist c.peers
    ∧ (∀ p : Peer,
        p ∈ c.peers.filter (fun p => if p.public_key = pk then false else true)
          ↔ p ∈ c.peers ∧ p.public_key ≠ pk)
    ∧ ((∀ p ∈ c.peers, p.public_key ≠ pk) →
        c.peers.filter (fun p => if p.public_key = pk then false else true)
          = c.peers) := by
  refine ⟨?_, List.filter_sublist _, ?_, ?_⟩
  · unfold delete_peer
    rw [rustRetain_eq_filter]
  · intro p
    rw [List.mem_filter]
    constructor
    · intro ⟨h1, h2⟩
      refine ⟨h1, ?_⟩
      intro he
      rw [if_pos he] at h2
      exact absurd h2 (by simp)
    · intro ⟨h1, h2⟩
      refine ⟨h1, ?_⟩
      rw [if_neg h2]
  · intro hall
    apply List.filter_eq_self.mpr
    intro p hp
    rw [if_neg (hall p hp)]

theorem delete_peer_all_matches_witness :
    delete_peer dupConfig (lit ("1"))
        = .ok { dupConfig with peers := [peerB] }
    ∧ delete_peer dupConfig (lit ("3"))
        = .ok { dupConfig with peers := [peerA, peerB, peerA2] } := by
  constructor
  · have h := (delete_peer_all_matches dupConfig (lit ("1"))).1
    rw [h]
    rfl
  · have h := (delete_peer_all_matches dupConfig (lit ("3"))).1
    have h2 := (delete_peer_all_matches dupConfig (lit ("3"))).2.2.2
      (by intro p hp; fin_cases hp <;> decide)
    rw [h, h2]
    rfl

/-- Section/interface-flag scanner: tracks only the current section
context and whether a key-value line was ever processed while that
context was `Interface`. -/
def scanStep (acc : Str × Bool) (raw : Str) : Str × Bool :=
  let line := trim raw
  if line.isEmpty then acc
  else if startsWithChar '#' line then acc
  else if startsWithChar '[' line && endsWithChar ']' line then
    (trimBrackets line, acc.2)
  else
    match splitOnce '=' line with
    | some _ => (acc.1, acc.2 || decide (acc.1 = lit ("Interface")))
    | none => acc

/-- `true` when some key-value line occurs while the section context is
`Interface`. -/
def hasInterfaceKV (lines : List Str) : Bool :=
  (lines.foldl scanStep ([], false)).2

theorem stepLine_scanStep (st : PState) (acc : Str × Bool) (raw : Str)
    (h1 : st.current_section = acc.1) (h2 : st.interface.isSome = acc.2) :
    (stepLine st raw).current_section = (scanStep acc raw).1 ∧
    (stepLine st raw).interface.isSome = (scanStep acc raw).2 := by
  unfold stepLine scanStep
  generalize trim raw = line
  by_cases hb : line.isEmpty = true
  · unfold stepTrimmed
    rw [if_pos hb, if_pos hb]
    exact ⟨h1, h2⟩
  unfold stepTrimmed
  rw [if_neg hb, if_neg hb]
  by_cases hc : startsWithChar '#' line = true
  · rw [if_pos hc, if_pos hc]
    exact ⟨h1, h2⟩
  rw [if_neg hc, if_neg hc]
  by_cases hh : (startsWithChar '[' line && endsWithChar ']' line) = true
  · rw [if_pos hh, if_pos hh]
    simp only [headerStep]
    by_cases hs : trimBrackets line = lit ("Peer")
    · rw [if_pos hs]
      exact ⟨rfl, h2⟩
    · rw [if_neg hs]
      exact ⟨rfl, h2⟩
  rw [if_neg hh, if_neg hh]
  cases hsp : splitOnce '=' line with
  | none => exact ⟨h1, h2⟩
  | some kv =>
    obtain ⟨k, v⟩ := kv
    show (kvStep st (trim k) (trim v)).current_section = acc.1 ∧
      (kvStep st (trim k) (trim v)).interface.isSome
        = (acc.2 || decide (acc.1 = lit ("Interface")))
    unfold kvStep
    by_cases hI : st.current_section = lit ("Interface")
    · rw [if_pos hI]
      refine ⟨h1, ?_⟩
      have : acc.1 = lit ("Interface") := by rw [← h1, hI]
      rw [this]
      simp
    rw [if_neg hI]
    have hd : decide (acc.1 = lit ("Interface")) = false := by
      rw [← h1]
      exact decide_eq_false hI
    by_cases hP : st.current_section = lit ("Peer")
    · rw [if_pos hP]
      cases st.current_peer with
      | none => rw [hd]; simp [h1, h2]
      | some p => rw [hd]; simp [h1, h2]
    · rw [if_neg hP, hd]
      simp [h1, h2]

theorem foldl_scan (lines : List Str) : ∀ (st : PState) (acc : Str × Bool),
    st.current_section = acc.1 → st.interface.isSome = acc.2 →
    (List.foldl stepLine st lines).interface.isSome
      = (List.foldl scanStep acc lines).2 := by
  induction lines with
  | nil => intro st acc _ h2; exact h2
  | cons l t ih =>
    intro st acc h1 h2
    rw [List.foldl_cons, List.foldl_cons]
    obtain ⟨g1, g2⟩ := stepLine_scanStep st acc l h1 h2
    exact ih _ _ g1 g2

/-- C5: parsing fails with the missing-interface error exactly when no
key-value line is ever seen while the section context is `Interface`;
with at least one such line, parsing succeeds.  In particular a file of
only `[Peer]` sections fails with this error, and so does a file whose
`[Interface]` header is followed by no key-value lines. -/
theorem parse_missing_interface (n pa content : Str) :
    (parse_config_content n pa content
        = .error (lit ("No [Interface] section found"))
      ↔ hasInterfaceKV (rustLines content) = false)
    ∧ (hasInterfaceKV (rustLines content) = true →
        ∃ cfg, parse_config_content n pa content = .ok cfg)
    ∧ parse_config_content n pa (lit ("[Peer]\nPublicKey = x\n"))
        = .error (lit ("No [Interface] section found"))
    ∧ parse_config_content n pa (lit ("[Interface]\n"))
        = .error (lit ("No [Interface] section found")) := by
  have hkey : (List.foldl stepLine initState (rustLines content)).interface.isSome
      = hasInterfaceKV (rustLines content) :=
    foldl_scan (rustLines content) initState ([], false) rfl rfl
  refine ⟨?_, ?_, by rfl, by rfl⟩
  · rw [parse_config_content_eq]
    cases hio : (List.foldl stepLine initState (rustLines content)).interface with
    | none =>
      rw [hio] at hkey
      simp at hkey
      simp [← hkey]
    | some i =>
      rw [hio] at hkey
      simp at hkey
      constructor
      · intro hcon
        simp at hcon
      · intro hcon
        rw [hkey] at hcon
        simp at hcon
  · intro htrue
    rw [parse_config_content_eq]
    cases hio : (List.foldl stepLine initState (rustLines content)).interface with
    | none =>
      rw [hio] at hkey
      rw [htrue] at hkey
      simp at hkey
    | some i => exact ⟨_, rfl⟩

theorem parse_missing_interface_witness :
    (∃ cfg, parse_config_content (lit ("wg0")) (lit ("p"))
        (lit ("[Interface]\nFoo = bar\n")) = .ok cfg)
    ∧ parse_config_content (lit ("wg0")) (lit ("p"))
        (lit ("[Peer]\nPublicKey = x\n"))
        = .error (lit ("No [Interface] section found")) := by
  refine ⟨?_, ?_⟩
  · exact (parse_missing_interface (lit ("wg0")) (lit ("p"))
      (lit ("[Interface]\nFoo = bar\n"))).2.1 (by rfl)
  · exact (parse_missing_interface (lit ("wg0")) (lit ("p"))
      (lit ("x"))).2.2.1

/-- C6: a `ListenPort` line whose value does not parse as a `u16` sets
`listen_port` to `51820`, and a `PersistentKeepalive` line whose value
does not parse sets `persistent_keepalive` to `none`; neither aborts the
parse (end-to-end examples included). -/
theorem lenient_numeric_defaults :
    (∀ (st : PState) (v : Str), trim v = v → parseU16 v = none →
        st.current_section = lit ("Interface") →
        stepLine st (kvL (lit ("ListenPort")) v)
          = { st with
              interface :=
                some { st.interface.getD defaultInterface with
                       listen_port := 51820 } })
    ∧ (∀ (st : PState) (p : Peer) (v : Str), trim v = v → parseU16 v = none →
        st.current_section = lit ("Peer") → st.current_peer = some p →
        stepLine st (kvL (lit ("PersistentKeepalive")) v)
          = { st with
              current_peer :=
                some { p with persistent_keepalive := none } })
    ∧ parse_config_content (lit ("w")) (lit ("p"))
        (lit ("[Interface]\nListenPort = notanumber\n"))
        = .ok { name := lit ("w"), path := lit ("p"),
                interface := defaultInterface, peers := [] }
    ∧ parse_config_content (lit ("w")) (lit ("p"))
        (lit ("[Interface]\nAddress = a\n[Peer]\nPublicKey = x\nPersistentKeepalive = notanumber\n"))
        = .ok { name := lit ("w"), path := lit ("p"),
                interface := { defaultInterface with address := lit ("a") },
                peers := [{ public_key := lit ("x"), allowed_ips := [],
                            persistent_keepalive := none, endpoint := none,
                            name := none }] } := by
  refine ⟨?_, ?_, by rfl, by rfl⟩
  · intro st v hv hpn hsec
    rw [step_listenport st v hsec hv, hpn]
    rfl
  · intro st p v hv hpn hsec hp
    rw [step_keepalive st p v hsec hp hv, hpn]

theorem lenient_numeric_defaults_witness :
    stepLine { interface := some defaultInterface, peers := [],
               current_section := lit ("Interface"), current_peer := none,
               last_comment := none }
        (kvL (lit ("ListenPort")) (lit ("notanumber")))
      = { interface := some defaultInterface, peers := [],
          current_section := lit ("Interface"), current_peer := none,
          last_comment := none } := by
  have h := lenient_numeric_defaults.1
    { interface := some defaultInterface, peers := [],
      current_section := lit ("Interface"), current_peer := none,
      last_comment := none }
    (lit ("notanumber")) (by decide) (by decide) rfl
  rw [h]
  rfl

/-- C7: every section header (including a repeated `[Interface]`) closes
a currently open peer by appending it to the peer sequence and leaves the
interface record untouched; a key-value line in `Interface` context
updates the existing record in place (never creating a second one); an
end-to-end example with two `[Interface]` sections whose keys overwrite
one record. -/
theorem single_interface_overwrite :
    (∀ (st : PState) (l : Str),
        (startsWithChar '[' (trim l) && endsWithChar ']' (trim l)) = true →
        (stepLine st l).peers = st.peers ++ st.current_peer.toList ∧
        (stepLine st l).interface = st.interface ∧
        (stepLine st l).current_section = trimBrackets (trim l))
    ∧ (∀ (st : PState) (key value : Str) (i : Interface),
        st.current_section = lit ("Interface") → st.interface = some i →
        (kvStep st key value).interface
            = some (applyInterfaceKey i key value) ∧
        (kvStep st key value).peers = st.peers)
    ∧ parse_config_content (lit ("w")) (lit ("p"))
        (lit ("[Interface]\nPrivateKey = a\n[Peer]\nPublicKey = x\n[Interface]\nPrivateKey = b\nAddress = c\n"))
        = .ok { name := lit ("w"), path := lit ("p"),
                interface := { private_key := lit ("b"),
                               address := lit ("c"), listen_port := 51820,
                               dns := none, post_up := none,
                               post_down := none },
                peers := [{ public_key := lit ("x"), allowed_ips := [],
                            persistent_keepalive := none, endpoint := none,
                            name := none }] } := by
  refine ⟨?_, ?_, by rfl⟩
  · intro st l hl
    rw [Bool.and_eq_true] at hl
    unfold stepLine
    rw [stepTrimmed_header st hl.1 hl.2]
    unfold headerStep
    by_cases hs : trimBrackets (trim l) = lit ("Peer")
    · rw [if_pos hs]
      exact ⟨rfl, rfl, by rw [hs]⟩
    · rw [if_neg hs]
      exact ⟨rfl, rfl, rfl⟩
  · intro st key value i hsec hi
    rw [kvStep_interface st key value hsec, hi]
    exact ⟨rfl, rfl⟩

theorem single_interface_overwrite_witness :
    (stepLine { interface := some defaultInterface, peers := [],
                current_section := lit ("Peer"),
                current_peer := some peerA, last_comment := none }
        (lit ("[Interface]"))).peers = [peerA]
    ∧ (kvStep { interface := some defaultInterface, peers := [],
                current_section := lit ("Interface"), current_peer := none,
                last_comment := none }
        (lit ("PrivateKey")) (lit ("zz"))).interface
      = some { defaultInterface with private_key := lit ("zz") } := by
  constructor
  · have h := (single_interface_overwrite.1
      { interface := some defaultInterface, peers := [],
        current_section := lit ("Peer"), current_peer := some peerA,
        last_comment := none } (lit ("[Interface]")) (by decide)).1
    rw [h]
    rfl
  · have h := (single_interface_overwrite.2.1
      { interface := some defaultInterface, peers := [],
        current_section := lit ("Interface"), current_peer := none,
        last_comment := none } (lit ("PrivateKey")) (lit ("zz"))
      defaultInterface rfl rfl).1
    rw [h, applyInterfaceKey_pk]

/-- C2 counterexample: a comment followed by an `[Interface]` header is
NOT discarded — it survives and becomes the name of the next bare
`[Peer]` section, contradicting the claim. -/
theorem comment_not_discarded_counterexample :
    (parse_config_content (lit ("w")) (lit ("p"))
        (lit ("# alpha\n[Interface]\nPrivateKey = k\n[Peer]\nPublicKey = x\n"))).map
        (fun c => c.peers.map (fun p => p.name))
      = .ok [some (lit ("alpha"))] := by rfl

/-- C2 amended: a pending comment survives any non-`[Peer]` section
header unchanged and is consumed (seeding the peer's name and being
cleared) only by a `[Peer]` header. -/
theorem comment_survives_non_peer_header :
    (∀ (st : PState) (l : Str),
        (startsWithChar '[' (trim l) && endsWithChar ']' (trim l)) = true →
        trimBrackets (trim l) ≠ lit ("Peer") →
        (stepLine st l).last_comment = st.last_comment)
    ∧ (∀ (st : PState) (l : Str),
        (startsWithChar '[' (trim l) && endsWithChar ']' (trim l)) = true →
        trimBrackets (trim l) = lit ("Peer") →
        (stepLine st l).current_peer = some (newPeer st.last_comment) ∧
        (stepLine st l).last_comment = none) := by
  constructor
  · intro st l hl hnp
    rw [Bool.and_eq_true] at hl
    unfold stepLine
    rw [stepTrimmed_header st hl.1 hl.2]
    unfold headerStep
    rw [if_neg hnp]
  · intro st l hl hp
    rw [Bool.and_eq_true] at hl
    unfold stepLine
    rw [stepTrimmed_header st hl.1 hl.2]
    unfold headerStep
    rw [if_pos hp]
    exact ⟨rfl, rfl⟩

theorem comment_survives_non_peer_header_witness :
    (stepLine { interface := none, peers := [], current_section := [],
                current_peer := none, last_comment := some (lit ("alpha")) }
        (lit ("[Interface]"))).last_comment = some (lit ("alpha"))
    ∧ (stepLine { interface := none, peers := [], current_section := [],
                  current_peer := none, last_comment := some (lit ("alpha")) }
        (lit ("[Peer]"))).current_peer
      = some (newPeer (some (lit ("alpha")))) := by
  constructor
  · exact comment_survives_non_peer_header.1
      { interface := none, peers := [], current_section := [],
        current_peer := none, last_comment := some (lit ("alpha")) }
      (lit ("[Interface]")) (by decide) (by decide)
  · exact (comment_survives_non_peer_header.2
      { interface := none, peers := [], current_section := [],
        current_peer := none, last_comment := some (lit ("alpha")) }
      (lit ("[Peer]")) (by decide) (by decide)).1

/-- C8 counterexample: for the comment line `##x` the parser strips ALL
leading `#` characters (and trims whitespace), so the pending comment is
`x`, not `#x` as the claim states. -/
theorem comment_strip_counterexample :
    (stepLine initState (lit ("##x"))).last_comment = some (lit ("x"))
    ∧ (stepLine initState (lit ("##x"))).last_comment
        ≠ some (lit ("#x")) := by
  constructor
  · rfl
  · intro h
    simp [stepLine, initState] at h
    exact absurd h (by decide)

/-- C8 amended: for a line whose trimmed form starts with `#`, the
pending comment is the remainder with EVERY leading `#` stripped and
surrounding whitespace trimmed; the rest of the state is unchanged, and
consecutive comment lines overwrite the pending comment (last one
wins). -/
theorem comment_capture_last_wins :
    (∀ (st : PState) (l rest : Str), trim l = '#' :: rest →
        stepLine st l =
          { st with
            last_comment :=
              some (trim (List.dropWhile (fun c => c = '#') rest)) })
    ∧ (∀ (st : PState) (l1 l2 r1 r2 : Str),
        trim l1 = '#' :: r1 → trim l2 = '#' :: r2 →
        (stepLine (stepLine st l1) l2).last_comment
          = (stepLine st l2).last_comment) := by
  have key : ∀ (st : PState) (l rest : Str), trim l = '#' :: rest →
      stepLine st l =
        { st with
          last_comment :=
            some (trim (List.dropWhile (fun c => c = '#') rest)) } := by
    intro st l rest hl
    rw [stepLine_comment st hl]
    have : dropHashes ('#' :: rest) = List.dropWhile (fun c => c = '#') rest := by
      unfold dropHashes
      rw [List.dropWhile_cons, if_pos (by decide)]
    rw [this]
  refine ⟨key, ?_⟩
  intro st l1 l2 r1 r2 h1 h2
  rw [key st l1 r1 h1, key _ l2 r2 h2, key st l2 r2 h2]

theorem comment_capture_last_wins_witness :
    stepLine initState (lit ("#  x")) =
      { initState with last_comment := some (lit ("x")) }
    ∧ (stepLine (stepLine initState (lit ("# one"))) (lit ("# two"))).last_comment
      = (stepLine initState (lit ("# two"))).last_comment := by
  constructor
  · have h := comment_capture_last_wins.1 initState (lit ("#  x"))
      (lit ("  x")) (by decide)
    rw [h]
    rfl
  · exact comment_capture_last_wins.2 initState (lit ("# one")) (lit ("# two"))
      (lit (" one")) (lit (" two")) (by decide) (by decide)

/-- C9: `serialize_config` is a total pure function of the config whose
output is, in this exact order: the `[Interface]` header; `PrivateKey`,
`Address`, `ListenPort` lines always; `DNS`, `PostUp`, `PostDown` lines
only if present; then per peer (in sequence order) a blank line, an
optional `# name` comment, the `[Peer]` header, `PublicKey` and
`AllowedIPs` always, then `PersistentKeepalive` and `Endpoint` only if
present.  For well-formed configs this is also the exact line list of the
output. -/
theorem serializer_structure (c : WgConfig) :
    (serialize_config c =
      lit ("[Interface]\n")
      ++ lit ("PrivateKey = ") ++ c.interface.private_key ++ ['\n']
      ++ lit ("Address = ") ++ c.interface.address ++ ['\n']
      ++ lit ("ListenPort = ") ++ toDecimal c.interface.listen_port ++ ['\n']
      ++ (match c.interface.dns with
          | some d => lit ("DNS = ") ++ d ++ ['\n']
          | none => [])
      ++ (match c.interface.post_up with
          | some u => lit ("PostUp = ") ++ u ++ ['\n']
          | none => [])
      ++ (match c.interface.post_down with
          | some w => lit ("PostDown = ") ++ w ++ ['\n']
          | none => [])
      ++ (c.peers.map (fun p =>
            ['\n']
            ++ (match p.name with
                | some nm => lit ("# ") ++ nm ++ ['\n']
                | none => [])
            ++ lit ("[Peer]\n")
            ++ lit ("PublicKey = ") ++ p.public_key ++ ['\n']
            ++ lit ("AllowedIPs = ") ++ p.allowed_ips ++ ['\n']
            ++ (match p.persistent_keepalive with
                | some k =>
                    lit ("PersistentKeepalive = ") ++ toDecimal k ++ ['\n']
                | none => [])
            ++ (match p.endpoint with
                | some e => lit ("Endpoint = ") ++ e ++ ['\n']
                | none => []))).flatten)
    ∧ (WfConfig c → rustLines (serialize_config c) = configLines c) := by
  constructor
  · have hmap : c.peers.map serializePeer
        = c.peers.map (fun p =>
            ['\n']
            ++ (match p.name with
                | some nm => lit ("# ") ++ nm ++ ['\n']
                | none => [])
            ++ lit ("[Peer]\n")
            ++ lit ("PublicKey = ") ++ p.public_key ++ ['\n']
            ++ lit ("AllowedIPs = ") ++ p.allowed_ips ++ ['\n']
            ++ (match p.persistent_keepalive with
                | some k =>
                    lit ("PersistentKeepalive = ") ++ toDecimal k ++ ['\n']
                | none => [])
            ++ (match p.endpoint with
                | some e => lit ("Endpoint = ") ++ e ++ ['\n']
                | none => [])) := by
      refine List.map_congr_left ?_
      intro p _
      obtain ⟨pub, ips, keep, endp, nm⟩ := p
      have t0 : lit ("[Peer]\n") = lit ("[Peer]") ++ ['\n'] := rfl
      have t1 : lit ("# ") = ['#', ' '] := rfl
      have t2 : lit ("PublicKey = ") = lit ("PublicKey") ++ [' ', '=', ' '] :=
        rfl
      have t3 : lit ("AllowedIPs = ")
          = lit ("AllowedIPs") ++ [' ', '=', ' '] := rfl
      have t4 : lit ("PersistentKeepalive = ")
          = lit ("PersistentKeepalive") ++ [' ', '=', ' '] := rfl
      have t5 : lit ("Endpoint = ") = lit ("Endpoint") ++ [' ', '=', ' '] :=
        rfl
      cases nm <;> cases keep <;> cases endp <;>
        simp [serializePeer, kvLine, optLine, t0, t1, t2, t3, t4, t5,
          List.append_assoc]
    unfold serialize_config
    rw [hmap]
    have s0 : lit ("[Interface]\n") = lit ("[Interface]") ++ ['\n'] := rfl
    have s1 : lit ("PrivateKey = ") = lit ("PrivateKey") ++ [' ', '=', ' '] :=
      rfl
    have s2 : lit ("Address = ") = lit ("Address") ++ [' ', '=', ' '] := rfl
    have s3 : lit ("ListenPort = ") = lit ("ListenPort") ++ [' ', '=', ' '] :=
      rfl
    have s4 : lit ("DNS = ") = lit ("DNS") ++ [' ', '=', ' '] := rfl
    have s5 : lit ("PostUp = ") = lit ("PostUp") ++ [' ', '=', ' '] := rfl
    have s6 : lit ("PostDown = ") = lit ("PostDown") ++ [' ', '=', ' '] := rfl
    cases hd : c.interface.dns <;> cases hu : c.interface.post_up <;>
      cases hw : c.interface.post_down <;>
      simp [kvLine, optLine, s0, s1, s2, s3, s4, s5, s6, List.append_assoc]
  · exact fun hw => rustLines_serialize c hw

/-- A small well-formed config used to witness the serializer claim. -/
def structConfig : WgConfig :=
  { name := lit ("w"), path := lit ("p"),
    interface :=
      { private_key := lit ("abc"), address := lit ("10.0.0.1/24"),
        listen_port := 51820, dns := none, post_up := none,
        post_down := none },
    peers :=
      [{ public_key := lit ("pk"), allowed_ips := lit ("0.0.0.0/0"),
         persistent_keepalive := some 25, endpoint := none,
         name := some (lit ("laptop")) }] }

theorem serializer_structure_witness :
    WfConfig structConfig
    ∧ rustLines (serialize_config structConfig) = configLines structConfig := by
  have hwf : WfConfig structConfig := by
    refine ⟨⟨⟨by decide, by decide⟩, ⟨by decide, by decide⟩, by decide,
      trivial, trivial, trivial⟩, ?_⟩
    intro p hp
    simp [structConfig] at hp
    subst hp
    refine ⟨⟨by decide, by decide⟩, ⟨by decide, by decide⟩, ?_, trivial,
      ⟨by decide, by decide⟩⟩
    intro k hk
    simp at hk
    omega
  exact ⟨hwf, (serializer_structure structConfig).2 hwf⟩

end WireDeck
